import Mathlib

/-!
Verification of the ABS Key Economic Indicators scraper
(`financial_data_collector/abs_data_collector/ingest/abs_economic_data.py`).

The Python module is embedded shallowly: strings are Lean `String`
(a list of Unicode code points, matching Python's `str`), the regular
expressions of the source are hand-compiled into executable matchers,
`float` values produced by numeric parsing are modelled as `Rat`
(every numeric cell on the page is a decimal literal, exactly
representable), and the `try/except` boundaries of the source become
`Except`-valued cores with catch-all wrappers.
-/

/-! ## Character classes, modelling Python `re` classes on the ASCII range -/

/-- Python `\s` (ASCII range): space, tab, newline, carriage return,
vertical tab, form feed. -/
def isSpaceChar (c : Char) : Bool :=
  c = ' ' ∨ c = '\t' ∨ c = '\n' ∨ c = '\r' ∨ c = '\x0b' ∨ c = '\x0c'

/-- Python `\d` (ASCII range). -/
def isDigitChar (c : Char) : Bool := '0' ≤ c ∧ c ≤ '9'

/-- Python `\w` (ASCII range): letters, digits and underscore. -/
def isWordChar (c : Char) : Bool :=
  ('a' ≤ c ∧ c ≤ 'z') ∨ ('A' ≤ c ∧ c ≤ 'Z') ∨ isDigitChar c ∨ c = '_'

/-- Python `str.lower` on one character (ASCII range). -/
def toLowerCh (c : Char) : Char :=
  if 'A' ≤ c ∧ c ≤ 'Z' then Char.ofNat (c.toNat + 32) else c

/-- The character is `-` (ASCII hyphen) or `−` (U+2212 minus). -/
def isMinusChar (c : Char) : Bool := c = '-' ∨ c = '−'

/-! ## String helpers, modelling the Python `str` methods used by the scraper -/

/-- Python `str.lower` on a character list. -/
def lowerList (l : List Char) : List Char := l.map toLowerCh

/-- Python `str.lower`. -/
def toLowerStr (s : String) : String := ⟨lowerList s.data⟩

/-- Python `str.strip()` on a character list: drop leading and trailing
whitespace. -/
def stripList (l : List Char) : List Char :=
  ((l.dropWhile isSpaceChar).reverse.dropWhile isSpaceChar).reverse

/-- Python `str.strip()`. -/
def pyStrip (s : String) : String := ⟨stripList s.data⟩

/-- Does `pat` occur at the head of the list? -/
def startsWithSeq : List Char → List Char → Bool
  | [], _ => true
  | _ :: _, [] => false
  | p :: ps, c :: cs => p = c ∧ startsWithSeq ps cs

/-- Does `pat` occur contiguously anywhere in the list?  Models Python's
`pat in s` substring test. -/
def occursIn (pat : List Char) : List Char → Bool
  | [] => pat.isEmpty
  | c :: cs => startsWithSeq pat (c :: cs) ∨ occursIn pat cs

/-- Python `pat in s` substring containment on strings. -/
def strContains (s pat : String) : Bool := occursIn pat.data s.data

/-- Accumulator-style tokenizer behind `pySplit`. -/
def splitWsAux : List Char → List Char → List (List Char)
  | [], acc => if acc.isEmpty then [] else [acc.reverse]
  | c :: cs, acc =>
    if isSpaceChar c then
      if acc.isEmpty then splitWsAux cs [] else acc.reverse :: splitWsAux cs []
    else splitWsAux cs (c :: acc)

/-- Python `str.split()` with no argument: split on whitespace runs,
producing no empty words. -/
def pySplit (s : String) : List String := (splitWsAux s.data []).map String.mk

/-- Python `'_'.join(words)`. -/
def joinUnderscore : List String → String
  | [] => ""
  | [w] => w
  | w :: ws => w ++ "_" ++ joinUnderscore ws

/-! ## Hand-compiled matchers for the regular expressions of the source -/

/-- Regex `\s+`, anchored at the head: requires at least one whitespace
character and consumes the maximal run, returning the rest.  The run is
deterministic because the pattern continuations never start with
whitespace. -/
def skipWs1 : List Char → Option (List Char)
  | [] => none
  | c :: cs => if isSpaceChar c then some (cs.dropWhile isSpaceChar) else none

/-- Case-insensitive literal match at the head of the list, returning the
rest.  Models a literal fragment of a regex compiled with
`re.IGNORECASE`. -/
def matchCaseless (pat l : List Char) : Option (List Char) :=
  match pat, l with
  | [], rest => some rest
  | _ :: _, [] => none
  | p :: ps, c :: cs => if toLowerCh c = toLowerCh p then matchCaseless ps cs else none

/-- Regex `\w{n}` (exactly `n` word characters) at the head, returning the
matched characters and the rest. -/
def grabWordChars : Nat → List Char → Option (List Char × List Char)
  | 0, l => some ([], l)
  | _ + 1, [] => none
  | n + 1, c :: cs =>
    if isWordChar c then (grabWordChars n cs).map (fun p => (c :: p.1, p.2)) else none

/-- Regex `\d{n}` (exactly `n` digits) at the head, returning the matched
characters and the rest. -/
def grabDigits : Nat → List Char → Option (List Char × List Char)
  | 0, l => some ([], l)
  | _ + 1, [] => none
  | n + 1, c :: cs =>
    if isDigitChar c then (grabDigits n cs).map (fun p => (c :: p.1, p.2)) else none

/-- One attempt of the pattern `\s+qtr\s+` (IGNORECASE) at the head of the
list, as used by `re.sub(r'\s+qtr\s+', ' Qtr ', text, flags=re.IGNORECASE)`
in `_normalize_period_text` and `_parse_period_to_datetime`.  Returns the
rest after the matched span. -/
def tryQtrPat (l : List Char) : Option (List Char) :=
  match skipWs1 l with
  | none => none
  | some r1 =>
    match matchCaseless "qtr".data r1 with
    | none => none
    | some r2 => skipWs1 r2

theorem dropWhile_length_le (p : Char → Bool) (l : List Char) :
    (l.dropWhile p).length ≤ l.length := by
  induction l with
  | nil => simp
  | cons c cs ih =>
    by_cases hc : p c <;> simp [List.dropWhile_cons, hc]
    omega

theorem skipWs1_length {l r : List Char} (h : skipWs1 l = some r) :
    r.length < l.length := by
  match l with
  | [] => simp [skipWs1] at h
  | c :: cs =>
    simp only [skipWs1] at h
    split at h
    · cases h
      have := dropWhile_length_le isSpaceChar cs
      simp
      omega
    · cases h

theorem matchCaseless_length {p l r : List Char} (h : matchCaseless p l = some r) :
    r.length ≤ l.length := by
  induction p generalizing l with
  | nil =>
    simp [matchCaseless] at h
    subst h
    exact Nat.le_refl _
  | cons p ps ih =>
    match l with
    | [] => simp [matchCaseless] at h
    | c :: cs =>
      simp only [matchCaseless] at h
      split at h
      · have := ih h
        simp
        omega
      · cases h

theorem tryQtrPat_length {l r : List Char} (h : tryQtrPat l = some r) :
    r.length < l.length := by
  unfold tryQtrPat at h
  cases h1 : skipWs1 l with
  | none => rw [h1] at h; cases h
  | some r1 =>
    rw [h1] at h
    dsimp only at h
    cases h2 : matchCaseless "qtr".data r1 with
    | none => rw [h2] at h; cases h
    | some r2 =>
      rw [h2] at h
      dsimp only at h
      have := skipWs1_length h1
      have := matchCaseless_length h2
      have := skipWs1_length h
      omega

/-- Left-to-right scan of `re.sub(r'\s+qtr\s+', ' Qtr ', text, flags=
re.IGNORECASE)`: at each position try the pattern; on a match emit the
replacement `" Qtr "` and continue after the matched span, otherwise keep
the character and move on.  The scan consumes at least one character per
step, so running it with the input length as fuel computes the full
substitution; the fuel keeps the recursion structural.  The `0, l => l`
case is unreachable under sufficient fuel (see `subQtrGo_fuel`). -/
def subQtrGo : Nat → List Char → List Char
  | _, [] => []
  | 0, l => l
  | fuel + 1, c :: cs =>
    match tryQtrPat (c :: cs) with
    | some rest => " Qtr ".data ++ subQtrGo fuel rest
    | none => c :: subQtrGo fuel cs

/-- The scan of `subQtrGo` started with sufficient fuel. -/
def subQtrAux (l : List Char) : List Char := subQtrGo l.length l

theorem subQtrGo_fuel {f1 f2 : Nat} {l : List Char}
    (h1 : l.length ≤ f1) (h2 : l.length ≤ f2) :
    subQtrGo f1 l = subQtrGo f2 l := by
  induction f1 generalizing f2 l with
  | zero =>
    have : l = [] := List.length_eq_zero.mp (Nat.le_zero.mp h1)
    subst this
    cases f2 <;> rfl
  | succ g1 ih =>
    match l with
    | [] => cases f2 <;> rfl
    | c :: cs =>
      obtain ⟨g2, rfl⟩ : ∃ g2, f2 = g2 + 1 := by
        cases f2 with
        | zero => simp at h2
        | succ g2 => exact ⟨g2, rfl⟩
      show subQtrGo (g1 + 1) (c :: cs) = subQtrGo (g2 + 1) (c :: cs)
      unfold subQtrGo
      simp only [List.length_cons] at h1 h2
      cases hp : tryQtrPat (c :: cs) with
      | some rest =>
        have hr := tryQtrPat_length hp
        simp only [List.length_cons] at hr
        dsimp only
        rw [@ih g2 rest (by omega) (by omega)]
      | none =>
        dsimp only
        rw [@ih g2 cs (by omega) (by omega)]

/-- Python `re.sub(r'\s+qtr\s+', ' Qtr ', text, flags=re.IGNORECASE)`. -/
def subQtr (s : String) : String := ⟨subQtrAux s.data⟩

/-- Regex `(\w{3})\s+(?:Qtr|Quarter)\s+(\d{4})` with `re.IGNORECASE`,
anchored at the start as under `re.match` (trailing text is allowed).
Returns the two capture groups.  The alternation is deterministic: a text
that matches the literal `Qtr` case-insensitively cannot also start with
`Quarter` case-insensitively (`t` differs from `u` at the second letter),
so trying `Qtr` first loses no matches. -/
def matchQuarter (l : List Char) : Option (String × String) := do
  let (m, r1) ← grabWordChars 3 l
  let r2 ← skipWs1 r1
  let r3 ←
    match matchCaseless "qtr".data r2 with
    | some rest => some rest
    | none => matchCaseless "quarter".data r2
  let r4 ← skipWs1 r3
  let (y, _) ← grabDigits 4 r4
  return (⟨m⟩, ⟨y⟩)

/-- One width alternative of the regex `(\w{3,4})\s+(\d{4})`: exactly `n`
word characters, whitespace, then a 4-digit group.  Trailing text is
allowed, as under `re.match`. -/
def monthYearAt (n : Nat) (l : List Char) : Option (String × String) := do
  let (m, r1) ← grabWordChars n l
  let r2 ← skipWs1 r1
  let (y, _) ← grabDigits 4 r2
  return (⟨m⟩, ⟨y⟩)

/-- Regex `(\w{3,4})\s+(\d{4})` anchored at the start.  `\w{3,4}` is
greedy, so the 4-character width is tried before the 3-character one. -/
def matchMonthYear (l : List Char) : Option (String × String) :=
  match monthYearAt 4 l with
  | some p => some p
  | none => monthYearAt 3 l

/-- Regex `(\d{4})` anchored at the start (trailing text allowed). -/
def matchYearStart (l : List Char) : Option String := do
  let (y, _) ← grabDigits 4 l
  return ⟨y⟩

/-- Regex `^\d{4}$`: the whole string is exactly four digits. -/
def isFourDigits (s : String) : Bool :=
  s.data.length = 4 ∧ s.data.all isDigitChar

/-! ## Model of Python `float()` on decimal literals -/

/-- Numeric value of a decimal digit character. -/
def digitVal (c : Char) : Nat := c.toNat - '0'.toNat

/-- Numeric value of a digit sequence read in base 10. -/
def digitsToNat (l : List Char) : Nat := l.foldl (fun acc c => 10 * acc + digitVal c) 0

/-- Exponent suffix of a decimal literal: optional sign, then at least one
digit, then end of string. -/
def pyFloatExp (sign mant : Rat) (l : List Char) : Option Rat :=
  let (esign, l1) : Int × List Char :=
    match l with
    | '-' :: rest => (-1, rest)
    | '+' :: rest => (1, rest)
    | _ => (1, l)
  let ed := l1.takeWhile isDigitChar
  let l2 := l1.dropWhile isDigitChar
  if ed.isEmpty ∨ ¬ l2.isEmpty then none
  else some (sign * mant * (10 : Rat) ^ (esign * (digitsToNat ed : Int)))

/-- Model of Python `float(s)` restricted to decimal notation: optional
sign, integer and/or fractional digits around an optional point, optional
exponent; `none` models the `ValueError` raised on any other input.  The
special spellings (`inf`, `nan`, underscore digit grouping) accepted by
Python never arise from the scraped numeric cells and are modelled as
errors. -/
def pyFloatOfDecimal (s : String) : Option Rat :=
  let (sign, l) : Rat × List Char :=
    match s.data with
    | '-' :: rest => (-1, rest)
    | '+' :: rest => (1, rest)
    | other => (1, other)
  let ip := l.takeWhile isDigitChar
  let l1 := l.dropWhile isDigitChar
  let (fp, l2) : List Char × List Char :=
    match l1 with
    | '.' :: rest => (rest.takeWhile isDigitChar, rest.dropWhile isDigitChar)
    | other => ([], other)
  if ip.isEmpty ∧ fp.isEmpty then none
  else
    let mant : Rat := (digitsToNat ip : Rat) + (digitsToNat fp : Rat) / ((10 : Rat) ^ fp.length)
    match l2 with
    | [] => some (sign * mant)
    | 'e' :: rest => pyFloatExp sign mant rest
    | 'E' :: rest => pyFloatExp sign mant rest
    | _ => none

/-! ## Data model: cells, rows, tables, records, page nodes -/

/-- One table cell: `rawText` models `cell.get_text()`, `link` models the
`href` of the first `<a>` descendant with `''` when there is no link or no
`href` attribute, exactly the value stored by `_parse_table`. -/
structure Cell where
  rawText : String
  link : String
deriving DecidableEq

/-- One table row (`<tr>`): its `<td>`/`<th>` cells in order. -/
structure TableRow where
  cells : List Cell
deriving DecidableEq

/-- One HTML table: its rows in order. -/
structure HtmlTable where
  rows : List TableRow
deriving DecidableEq

/-- The record dictionary built per row by `_parse_table`, with the same
fields in the same spelling. -/
structure IndicatorRecord where
  category : String
  indicator : String
  indicator_link : String
  period : String
  unit : String
  value : Option Rat
  value_raw : String
  change_previous_period : String
  change_year_on_year : String
  datetime : Option String
  frequency : String
  dataset_id : String
deriving DecidableEq

/-! ## The scraper functions of `ABSDataScraper` -/

/-- Embeds `_normalize_period_text`. -/
def normalizePeriodText (periodText : String) : String :=
  if periodText = "" then periodText
  else pyStrip (subQtr periodText)

/-- The month keywords of `_detect_frequency`. -/
def monthKeywords : List String :=
  ["jan", "feb", "mar", "apr", "may", "jun",
   "jul", "aug", "sep", "oct", "nov", "dec", "june"]

/-- Embeds `_detect_frequency`. -/
def detectFrequency (periodText : String) : String :=
  if periodText = "" then "unknown"
  else
    let periodLower := toLowerStr periodText
    if strContains periodLower "qtr" ∨ strContains periodLower "quarter" then "quarterly"
    else if monthKeywords.any (fun k => strContains periodLower k) then "monthly"
    else if isFourDigits (pyStrip periodText) then "annual"
    else "unknown"

/-- The quarter-start month map of `_parse_period_to_datetime`. -/
def quarterMonthMap : List (String × String) :=
  [("Mar", "03"), ("Jun", "06"), ("Sep", "09"), ("Dec", "12")]

/-- The full month map of `_parse_period_to_datetime`. -/
def fullMonthMap : List (String × String) :=
  [("Jan", "01"), ("Feb", "02"), ("Mar", "03"), ("Apr", "04"),
   ("May", "05"), ("Jun", "06"), ("June", "06"), ("Jul", "07"), ("Aug", "08"),
   ("Sep", "09"), ("Oct", "10"), ("Nov", "11"), ("Dec", "12")]

/-- Python `dict.get(key, default)` on an insertion-ordered dictionary. -/
def mapGetD (m : List (String × String)) (key dflt : String) : String :=
  match m.find? (fun p => p.1 = key) with
  | some p => p.2
  | none => dflt

/-- Embeds `_parse_period_to_datetime`: strip, normalize the `qtr` token,
then try the quarter pattern, the month pattern and the year pattern in
that order.  The body of the Python function cannot raise on a string
argument, so its `try/except` wrapper adds nothing here. -/
def parsePeriodToDatetime (periodText : String) : Option String :=
  let t0 := pyStrip periodText
  let t := subQtr t0
  match matchQuarter t.data with
  | some (monthAbbr, year) =>
      some (year ++ "-" ++ mapGetD quarterMonthMap monthAbbr "01" ++ "-01T00:00:00")
  | none =>
    match matchMonthYear t.data with
    | some (monthAbbr, year) =>
        some (year ++ "-" ++ mapGetD fullMonthMap monthAbbr "01" ++ "-01T00:00:00")
    | none =>
      match matchYearStart t.data with
      | some year => some (year ++ "-01-01T00:00:00")
      | none => none

/-- The `term_map` of `_generate_dataset_id`, in insertion order. -/
def termMap : List (String × String) :=
  [("gross domestic product", "gdp"),
   ("consumer price index", "cpi"),
   ("unemployment rate", "unemploy_rate"),
   ("employed persons", "employed"),
   ("participation rate", "particip_rate"),
   ("retail turnover", "retail"),
   ("building approvals", "building_app"),
   ("wage price index", "wpi"),
   ("dwelling", "dwelling"),
   ("loan commitments", "loans"),
   ("balance on goods", "trade_balance"),
   ("current account", "current_acc")]

/-- Embeds `re.sub(r'[^\w\s]', '', indicator_text.lower())`. -/
def cleanIndicatorText (s : String) : String :=
  ⟨(lowerList s.data).filter (fun c => isWordChar c ∨ isSpaceChar c)⟩

/-- Python `str.replace(' ', '_')` (only the plain space character). -/
def replaceSpaces (s : String) : String :=
  ⟨s.data.map (fun c => if c = ' ' then '_' else c)⟩

/-- Embeds `_generate_dataset_id`. -/
def generateDatasetId (indicatorText category : String) : String :=
  if indicatorText = "" then "unknown"
  else
    let cleaned := cleanIndicatorText indicatorText
    let keyTerms : List String :=
      match termMap.find? (fun p => strContains cleaned p.1) with
      | some p => [p.2]
      | none =>
        (((pySplit cleaned).take 3).filter (fun w => 2 < w.length)).map
          (fun w => w.take 4)
    let categoryAbbrev := (replaceSpaces (toLowerStr category)).take 4
    let datasetId := "abs_" ++ categoryAbbrev ++ "_" ++ joinUnderscore keyTerms
    if 50 < datasetId.length then datasetId.take 50 else datasetId

/-- The missing-data tokens of `_parse_numeric_value`, case-sensitive. -/
def missingTokens : List String := ["na", "NP", "..", "n/a"]

/-- Embeds `re.sub(r'[,$%\s]', '', value_text)` of `_parse_numeric_value`. -/
def strippedValueText (valueText : String) : String :=
  ⟨valueText.data.filter (fun c => ¬ (c = ',' ∨ c = '$' ∨ c = '%' ∨ isSpaceChar c))⟩

/-- The leading-minus normalization of `_parse_numeric_value`: when the
string starts with `-` or `−`, replace the leading run of such characters
(`str.lstrip('-−')`) by a single ASCII `-`. -/
def normalizeLeadingMinus (s : String) : String :=
  match s.data with
  | c :: _ => if c = '-' ∨ c = '−' then ⟨'-' :: s.data.dropWhile isMinusChar⟩ else s
  | [] => s

/-- Embeds `_parse_numeric_value`: strip `,`, `$`, `%` and whitespace,
normalize a leading minus, reject empty and missing-data strings, then
attempt float conversion (on the string with commas removed once more, as
in the source), whose failure (the caught `ValueError`) is the `none` of
`pyFloatOfDecimal`. -/
def parseNumericValue (valueText : String) : Option Rat :=
  let cleaned := normalizeLeadingMinus (strippedValueText valueText)
  if cleaned ≠ "" ∧ ¬ missingTokens.contains cleaned then
    pyFloatOfDecimal ⟨cleaned.data.filter (fun c => c ≠ ',')⟩
  else none

/-- The `cell_values` list of `_parse_table`: stripped text plus link of
every cell. -/
def extractCellValues (cells : List Cell) : List (String × String) :=
  cells.map (fun c => (pyStrip c.rawText, c.link))

/-- The record construction of `_parse_table` for one row's `cell_values`
(indexing is positional, with the same guards as the source). -/
def buildRecord (category : String) (cellValues : List (String × String)) :
    IndicatorRecord :=
  let cv (i : Nat) : String × String := cellValues.getD i ("", "")
  let normalizedPeriod := normalizePeriodText (cv 1).1
  let indicatorText := (cv 0).1
  { category := category
    indicator := indicatorText
    indicator_link := (cv 0).2
    period := normalizedPeriod
    unit := (cv 2).1
    value := parseNumericValue (cv 3).1
    value_raw := (cv 3).1
    change_previous_period := if 4 < cellValues.length then (cv 4).1 else ""
    change_year_on_year := if 5 < cellValues.length then (cv 5).1 else ""
    datetime := parsePeriodToDatetime normalizedPeriod
    frequency := detectFrequency normalizedPeriod
    dataset_id := generateDatasetId indicatorText category }

/-- The per-row step of `_parse_table`: `continue` on a row with fewer
than 5 cells, otherwise build `cell_values` and emit a record when it has
at least 5 entries (both guards appear in the source). -/
def rowRecord (category : String) (row : TableRow) : Option IndicatorRecord :=
  if row.cells.length < 5 then none
  else
    let cellValues := extractCellValues row.cells
    if 5 ≤ cellValues.length then some (buildRecord category cellValues) else none

/-- Embeds `_parse_table`: require a header row plus at least one data
row, skip the header, and collect the surviving rows' records.  The
source also extracts the header row's cell texts into a `headers` local
that no record field reads, so it is not modelled.  On string and list
inputs the body cannot raise, so the `try/except` wrapper of the source
adds nothing here. -/
def parseTable (table : HtmlTable) (category : String) : List IndicatorRecord :=
  if table.rows.length < 2 then []
  else (table.rows.drop 1).filterMap (rowRecord category)

/-- One node of the parsed page in document (pre-)order: its tag name, its
`get_text()` content, and its row structure when the node is a table.
BeautifulSoup's lenient parser produces some such tree for arbitrary
bytes, so arbitrarily malformed HTML is modelled by arbitrary node
lists. -/
structure PageNode where
  tagName : String
  textContent : String
  tableContent : Option HtmlTable
deriving DecidableEq

/-- A parsed page: its nodes flattened in document order, which is the
order `soup.find` and `find_next` traverse. -/
abbrev Soup := List PageNode

/-- The heading tags accepted by `_scrape_category_table`. -/
def headingTags : List String := ["h3", "h4", "strong"]

/-- The heading predicate of `_scrape_category_table`. -/
def isCategoryHeading (category : String) (n : PageNode) : Bool :=
  headingTags.contains n.tagName ∧
    strContains (toLowerStr n.textContent) (toLowerStr category)

/-- Position of the first matching heading (`soup.find` with the lambda
of `_scrape_category_table`). -/
def locateHeading (soup : Soup) (category : String) : Option Nat :=
  soup.findIdx? (isCategoryHeading category)

/-- The first table strictly after position `i` in document order
(`heading.find_next('table')`). -/
def findNextTable (soup : Soup) (i : Nat) : Option PageNode :=
  (soup.drop (i + 1)).find? (fun n => n.tagName = "table")

/-- Row structure of a node treated as a table. -/
def nodeRows (n : PageNode) : HtmlTable := n.tableContent.getD ⟨[]⟩

/-- The two-tier table search of `_scrape_category_table`: heading search
plus first following table, with the fallback scan over all tables whose
text contains the category name.  When a heading is found but no table
follows it, the fallback is not tried, exactly as in the source. -/
def locateCategoryTable (soup : Soup) (category : String) : Option PageNode :=
  match locateHeading soup category with
  | some i => findNextTable soup i
  | none =>
    (soup.filter (fun n => n.tagName = "table")).find?
      (fun n => strContains (toLowerStr n.textContent) (toLowerStr category))

/-- The `try` body of `_scrape_category_table`: locate the category's
table and parse it; no table means an empty result, not an error. -/
def scrapeCategoryTableCore (soup : Soup) (category : String) :
    Except String (List IndicatorRecord) :=
  match locateCategoryTable soup category with
  | some t => .ok (parseTable (nodeRows t) category)
  | none => .ok []

/-- Embeds `_scrape_category_table` including its catch-all `except`,
which turns any error of the body into an empty per-category result. -/
def scrapeCategoryTable (soup : Soup) (category : String) : List IndicatorRecord :=
  match scrapeCategoryTableCore soup category with
  | .ok records => records
  | .error _ => []

/-- The fixed category list of `scrape_key_indicators`. -/
def categoriesList : List String :=
  ["National accounts", "International accounts", "Consumption and investment",
   "Production", "Prices", "Labour force and demography", "Incomes",
   "Lending indicators"]

/-- Result of the page fetch: the parsed document, or the exception raised
by `session.get`/`raise_for_status` on a network or HTTP failure. -/
inductive FetchResult where
  | success (soup : Soup)
  | failure (message : String)

/-- The `try` body of `scrape_key_indicators`: a fetch failure raises, a
fetched page is scraped category by category and the per-category record
lists are concatenated (`all_data.extend`; the source skips the extend
for an empty per-category list, which concatenation makes identical).
The `scrape_date`/`source`/`source_url` columns the source then adds to
the DataFrame are per-scrape provenance metadata outside the record
fields and are not modelled. -/
def scrapeKeyIndicatorsCore (fetched : FetchResult) : Except String (List IndicatorRecord) :=
  match fetched with
  | .failure msg => .error msg
  | .success soup =>
      .ok ((categoriesList.map (fun c => scrapeCategoryTable soup c)).flatten)

/-- Embeds `scrape_key_indicators` including its catch-all `except`, which
turns any raised error into an empty overall result. -/
def scrapeKeyIndicators (fetched : FetchResult) : List IndicatorRecord :=
  match scrapeKeyIndicatorsCore fetched with
  | .ok records => records
  | .error _ => []

/-! ## Character-class facts -/

theorem charLe_toNat {a b : Char} : a ≤ b ↔ a.toNat ≤ b.toNat := by
  rw [Char.le_def, UInt32.le_def]
  exact ⟨fun h => h, fun h => h⟩

theorem charEq_toNat {a b : Char} : a = b ↔ a.toNat = b.toNat := by
  rw [Char.ext_iff, UInt32.ext_iff]
  exact Iff.rfl

theorem isSpaceChar_ranges {c : Char} (h : isSpaceChar c = true) :
    c.toNat = 32 ∨ (9 ≤ c.toNat ∧ c.toNat ≤ 13) := by
  simp only [isSpaceChar, decide_eq_true_eq] at h
  rcases h with h | h | h | h | h | h <;> subst h <;> decide

theorem isDigitChar_ranges {c : Char} (h : isDigitChar c = true) :
    48 ≤ c.toNat ∧ c.toNat ≤ 57 := by
  simp only [isDigitChar, decide_eq_true_eq, charLe_toNat] at h
  have h0 : ('0' : Char).toNat = 48 := by decide
  have h9 : ('9' : Char).toNat = 57 := by decide
  omega

theorem isWordChar_ranges {c : Char} (h : isWordChar c = true) :
    (97 ≤ c.toNat ∧ c.toNat ≤ 122) ∨ (65 ≤ c.toNat ∧ c.toNat ≤ 90) ∨
      (48 ≤ c.toNat ∧ c.toNat ≤ 57) ∨ c.toNat = 95 := by
  simp only [isWordChar, decide_eq_true_eq, charLe_toNat, charEq_toNat] at h
  have ha : ('a' : Char).toNat = 97 := by decide
  have hz : ('z' : Char).toNat = 122 := by decide
  have hA : ('A' : Char).toNat = 65 := by decide
  have hZ : ('Z' : Char).toNat = 90 := by decide
  have hu : ('_' : Char).toNat = 95 := by decide
  rcases h with h | h | h | h
  · omega
  · omega
  · have := isDigitChar_ranges (by simpa [isDigitChar] using h)
    omega
  · omega

theorem isWordChar_not_space {c : Char} (h : isWordChar c = true) :
    isSpaceChar c = false := by
  cases hs : isSpaceChar c with
  | false => rfl
  | true =>
    rcases isWordChar_ranges h with ⟨h1, h2⟩ | ⟨h1, h2⟩ | ⟨h1, h2⟩ | h1 <;>
      rcases isSpaceChar_ranges hs with h3 | ⟨h3, h4⟩ <;> omega

theorem isDigitChar_word {c : Char} (h : isDigitChar c = true) :
    isWordChar c = true := by
  simp only [isWordChar, decide_eq_true_eq]
  tauto

theorem isDigitChar_not_space {c : Char} (h : isDigitChar c = true) :
    isSpaceChar c = false :=
  isWordChar_not_space (isDigitChar_word h)

theorem isSpaceChar_not_word {c : Char} (h : isSpaceChar c = true) :
    isWordChar c = false := by
  cases hw : isWordChar c with
  | false => rfl
  | true => rw [isWordChar_not_space hw] at h; cases h

theorem toLowerCh_of_not_upper {c : Char} (h : ¬ (65 ≤ c.toNat ∧ c.toNat ≤ 90)) :
    toLowerCh c = c := by
  unfold toLowerCh
  rw [if_neg]
  intro ⟨h1, h2⟩
  rw [charLe_toNat] at h1 h2
  have hA : ('A' : Char).toNat = 65 := by decide
  have hZ : ('Z' : Char).toNat = 90 := by decide
  omega

theorem toLowerCh_digit {c : Char} (h : isDigitChar c = true) : toLowerCh c = c := by
  have := isDigitChar_ranges h
  exact toLowerCh_of_not_upper (by omega)

theorem toLowerCh_space {c : Char} (h : isSpaceChar c = true) : toLowerCh c = c := by
  rcases isSpaceChar_ranges h with h1 | ⟨h1, h2⟩ <;>
    exact toLowerCh_of_not_upper (by omega)

theorem toLowerCh_digit_ne {c q : Char} (h : isDigitChar c = true)
    (hq : 97 ≤ q.toNat) : toLowerCh c ≠ q := by
  rw [toLowerCh_digit h]
  intro hcq
  rw [charEq_toNat] at hcq
  have := isDigitChar_ranges h
  omega

theorem toLowerCh_space_ne {c q : Char} (h : isSpaceChar c = true)
    (hq : 65 ≤ q.toNat) : toLowerCh c ≠ q := by
  rw [toLowerCh_space h]
  intro hcq
  rw [charEq_toNat] at hcq
  rcases isSpaceChar_ranges h with h1 | ⟨h1, h2⟩ <;> omega

/-- A character whose lowercase form is a lowercase letter is not
whitespace (it is either that letter or its uppercase partner). -/
theorem not_space_of_toLower_letter {a b : Char} (h : toLowerCh a = b)
    (hb : 97 ≤ b.toNat ∧ b.toNat ≤ 122) : isSpaceChar a = false := by
  cases hs : isSpaceChar a with
  | false => rfl
  | true =>
    rw [toLowerCh_space hs] at h
    subst h
    rcases isSpaceChar_ranges hs with h1 | ⟨h1, h2⟩ <;> omega

/-! ## List and substring facts -/

theorem dropWhile_append_of_all {p : Char → Bool} {a : List Char} (t : List Char)
    (ha : ∀ c ∈ a, p c = true) :
    (a ++ t).dropWhile p = t.dropWhile p := by
  induction a with
  | nil => rfl
  | cons c cs ih =>
    have hc : p c = true := ha c (by simp)
    simp only [List.cons_append, List.dropWhile_cons, hc, if_true]
    exact ih (fun x hx => ha x (by simp [hx]))

theorem dropWhile_eq_self_of_head {p : Char → Bool} {t : List Char}
    (ht : ∀ c, t.head? = some c → p c = false) :
    t.dropWhile p = t := by
  cases t with
  | nil => rfl
  | cons c cs => simp [List.dropWhile_cons, ht c rfl]

theorem stripList_wrap {x y : Char} (mid : List Char)
    (hx : isSpaceChar x = false) (hy : isSpaceChar y = false) :
    stripList (x :: (mid ++ [y])) = x :: (mid ++ [y]) := by
  unfold stripList
  rw [List.dropWhile_cons, if_neg (by simp [hx])]
  rw [List.reverse_cons, List.reverse_append]
  simp only [List.reverse_cons, List.reverse_nil, List.nil_append, List.cons_append,
    List.singleton_append]
  rw [List.dropWhile_cons, if_neg (by simp [hy])]
  simp [List.reverse_append]

theorem startsWithSeq_self_append (p t : List Char) :
    startsWithSeq p (p ++ t) = true := by
  induction p with
  | nil => rfl
  | cons c cs ih => simp [startsWithSeq, ih]

theorem occursIn_append_right {p t : List Char} (a : List Char)
    (h : occursIn p t = true) : occursIn p (a ++ t) = true := by
  induction a with
  | nil => simpa
  | cons c cs ih => simp [occursIn, ih]

theorem occursIn_self_append (p b : List Char) : occursIn p (p ++ b) = true := by
  cases p with
  | nil =>
    cases b with
    | nil => rfl
    | cons c cs => simp [occursIn, startsWithSeq]
  | cons c cs =>
    simp only [occursIn, decide_eq_true_eq]
    exact Or.inl (by simpa using startsWithSeq_self_append (c :: cs) b)

theorem occursIn_at (a p b : List Char) : occursIn p (a ++ (p ++ b)) = true :=
  occursIn_append_right a (occursIn_self_append p b)

theorem mem_of_occursIn {q : Char} {p l : List Char}
    (h : occursIn (q :: p) l = true) : q ∈ l := by
  induction l with
  | nil => simp [occursIn] at h
  | cons d ds ih =>
    simp only [occursIn, decide_eq_true_eq] at h
    rcases h with h | h
    · simp only [startsWithSeq, decide_eq_true_eq] at h
      simp [h.1]
    · simp [ih h]

theorem strMk_ne_empty {c : Char} {cs : List Char} : String.mk (c :: cs) ≠ "" := by
  intro h
  have : (String.mk (c :: cs)).data = ("" : String).data := by rw [h]
  simp at this

/-! ## Behaviour of the compiled matchers on structured inputs -/

theorem skipWs1_append {ws t : List Char} (h1 : ws ≠ [])
    (h2 : ∀ c ∈ ws, isSpaceChar c = true)
    (ht : ∀ c, t.head? = some c → isSpaceChar c = false) :
    skipWs1 (ws ++ t) = some t := by
  match ws, h1 with
  | w :: ws', _ =>
    have hw : isSpaceChar w = true := h2 w (by simp)
    simp only [List.cons_append, skipWs1, hw, if_true]
    rw [dropWhile_append_of_all t (fun c hc => h2 c (by simp [hc])),
      dropWhile_eq_self_of_head ht]

theorem skipWs1_none_of_head {c : Char} {cs : List Char}
    (h : isSpaceChar c = false) : skipWs1 (c :: cs) = none := by
  simp [skipWs1, h]

theorem matchCaseless_append {p q t : List Char} (hlen : q.length = p.length)
    (hq : lowerList q = lowerList p) : matchCaseless p (q ++ t) = some t := by
  induction p generalizing q with
  | nil =>
    have : q = [] := List.length_eq_zero.mp hlen
    subst this
    rfl
  | cons p ps ih =>
    match q with
    | [] => simp at hlen
    | c :: cs =>
      simp only [lowerList, List.map_cons, List.cons.injEq] at hq
      simp only [List.cons_append, matchCaseless, hq.1, if_true]
      exact ih (by simpa using hlen) hq.2

theorem matchCaseless_cons_ne {p c : Char} {ps cs : List Char}
    (h : ¬ toLowerCh c = toLowerCh p) :
    matchCaseless (p :: ps) (c :: cs) = none := by
  simp [matchCaseless, h]

theorem grabWordChars_append {m : List Char} (t : List Char)
    (h : ∀ c ∈ m, isWordChar c = true) :
    grabWordChars m.length (m ++ t) = some (m, t) := by
  induction m with
  | nil => rfl
  | cons c cs ih =>
    have hc : isWordChar c = true := h c (by simp)
    have htail := ih (fun x hx => h x (by simp [hx]))
    simp only [List.length_cons, List.cons_append, grabWordChars, hc, if_true]
    rw [show cs.append t = cs ++ t from rfl, htail]
    rfl

theorem grabDigits_append {y : List Char} (t : List Char)
    (h : ∀ c ∈ y, isDigitChar c = true) :
    grabDigits y.length (y ++ t) = some (y, t) := by
  induction y with
  | nil => rfl
  | cons c cs ih =>
    have hc : isDigitChar c = true := h c (by simp)
    have htail := ih (fun x hx => h x (by simp [hx]))
    simp only [List.length_cons, List.cons_append, grabDigits, hc, if_true]
    rw [show cs.append t = cs ++ t from rfl, htail]
    rfl

theorem grabWordChars_extra_none {m t : List Char} (k : Nat)
    (hm : ∀ c ∈ m, isWordChar c = true)
    (ht : ∀ c, t.head? = some c → isWordChar c = false) :
    grabWordChars (m.length + (k + 1)) (m ++ t) = none := by
  induction m with
  | nil =>
    cases t with
    | nil => rfl
    | cons c cs => simp [grabWordChars, ht c rfl]
  | cons c cs ih =>
    have hc : isWordChar c = true := hm c (by simp)
    have htail := ih (fun x hx => hm x (by simp [hx]))
    have hlen : (c :: cs).length + (k + 1) = (cs.length + (k + 1)) + 1 := by
      simp
      omega
    rw [hlen]
    simp only [List.cons_append, grabWordChars, hc, if_true]
    rw [show cs.append t = cs ++ t from rfl, htail]
    rfl

theorem tryQtrPat_none_of_head {c : Char} {cs : List Char}
    (h : isSpaceChar c = false) : tryQtrPat (c :: cs) = none := by
  unfold tryQtrPat
  rw [skipWs1_none_of_head h]

theorem tryQtrPat_append {ws1 q ws2 t : List Char}
    (h1 : ws1 ≠ []) (h1a : ∀ c ∈ ws1, isSpaceChar c = true)
    (hqlen : q.length = 3) (hq : lowerList q = "qtr".data)
    (hqhead : ∀ c, q.head? = some c → isSpaceChar c = false)
    (h2 : ws2 ≠ []) (h2a : ∀ c ∈ ws2, isSpaceChar c = true)
    (ht : ∀ c, t.head? = some c → isSpaceChar c = false) :
    tryQtrPat (ws1 ++ (q ++ (ws2 ++ t))) = some t := by
  unfold tryQtrPat
  rw [skipWs1_append h1 h1a (fun c hc => by
    cases q with
    | nil => simp at hqlen
    | cons x xs => exact hqhead c (by simpa using hc))]
  dsimp only
  rw [matchCaseless_append (p := "qtr".data) (by rw [hqlen]; rfl)
    (by rw [hq]; decide)]
  dsimp only
  rw [skipWs1_append h2 h2a ht]

theorem subQtrAux_nil : subQtrAux [] = [] := rfl

theorem subQtrAux_cons_none {c : Char} {cs : List Char}
    (h : tryQtrPat (c :: cs) = none) :
    subQtrAux (c :: cs) = c :: subQtrAux cs := by
  unfold subQtrAux
  rw [show subQtrGo (c :: cs).length (c :: cs) =
    (match tryQtrPat (c :: cs) with
      | some rest => " Qtr ".data ++ subQtrGo cs.length rest
      | none => c :: subQtrGo cs.length cs) from rfl]
  rw [h]

theorem subQtrAux_cons_some {c : Char} {cs rest : List Char}
    (h : tryQtrPat (c :: cs) = some rest) :
    subQtrAux (c :: cs) = " Qtr ".data ++ subQtrAux rest := by
  unfold subQtrAux
  rw [show subQtrGo (c :: cs).length (c :: cs) =
    (match tryQtrPat (c :: cs) with
      | some r => " Qtr ".data ++ subQtrGo cs.length r
      | none => c :: subQtrGo cs.length cs) from rfl]
  rw [h]
  have hr := tryQtrPat_length h
  simp only [List.length_cons] at hr
  dsimp only
  rw [subQtrGo_fuel (by omega) (Nat.le_refl _)]

theorem subQtrAux_append_nonws {a : List Char} (t : List Char)
    (ha : ∀ c ∈ a, isSpaceChar c = false) :
    subQtrAux (a ++ t) = a ++ subQtrAux t := by
  induction a with
  | nil => rfl
  | cons c cs ih =>
    rw [List.cons_append,
      subQtrAux_cons_none (tryQtrPat_none_of_head (ha c (by simp))),
      ih (fun x hx => ha x (by simp [hx]))]
    rfl

theorem subQtrAux_all_nonws {l : List Char}
    (h : ∀ c ∈ l, isSpaceChar c = false) : subQtrAux l = l := by
  have := subQtrAux_append_nonws (a := l) [] h
  simpa [subQtrAux_nil] using this

theorem subQtrAux_match_block {ws1 q ws2 t : List Char}
    (h1 : ws1 ≠ []) (h1a : ∀ c ∈ ws1, isSpaceChar c = true)
    (hqlen : q.length = 3) (hq : lowerList q = "qtr".data)
    (hqhead : ∀ c, q.head? = some c → isSpaceChar c = false)
    (h2 : ws2 ≠ []) (h2a : ∀ c ∈ ws2, isSpaceChar c = true)
    (ht : ∀ c, t.head? = some c → isSpaceChar c = false) :
    subQtrAux (ws1 ++ (q ++ (ws2 ++ t))) = " Qtr ".data ++ subQtrAux t := by
  match ws1, h1 with
  | w :: ws1', _ =>
    have hpat : tryQtrPat ((w :: ws1') ++ (q ++ (ws2 ++ t))) = some t :=
      tryQtrPat_append (by simp) h1a hqlen hq hqhead h2 h2a ht
    rw [List.cons_append] at hpat ⊢
    exact subQtrAux_cons_some hpat

theorem subQtrAux_ws_block {ws t : List Char}
    (hws : ∀ c ∈ ws, isSpaceChar c = true)
    (ht : ∀ c, t.head? = some c → isSpaceChar c = false)
    (hfail : matchCaseless "qtr".data t = none) :
    subQtrAux (ws ++ t) = ws ++ subQtrAux t := by
  induction ws with
  | nil => rfl
  | cons w ws' ih =>
    have hpat : tryQtrPat ((w :: ws') ++ t) = none := by
      unfold tryQtrPat
      rw [@skipWs1_append (w :: ws') t (by simp) hws ht]
      dsimp only
      rw [hfail]
    rw [List.cons_append] at hpat
    rw [List.cons_append, subQtrAux_cons_none hpat,
      ih (fun x hx => hws x (by simp [hx]))]
    rfl

theorem skipWs1_cons_space_head {c : Char} {cs : List Char}
    (hc : isSpaceChar c = true)
    (h : ∀ x, cs.head? = some x → isSpaceChar x = false) :
    skipWs1 (c :: cs) = some cs := by
  simp [skipWs1, hc, dropWhile_eq_self_of_head h]

theorem grabWordChars_three {a b c : Char} (t : List Char)
    (ha : isWordChar a = true) (hb : isWordChar b = true) (hc : isWordChar c = true) :
    grabWordChars 3 ([a, b, c] ++ t) = some ([a, b, c], t) := by
  simpa using grabWordChars_append (m := [a, b, c]) t (by
    intro x hx
    simp at hx
    rcases hx with rfl | rfl | rfl <;> assumption)

theorem grabWordChars_four {a b c d : Char} (t : List Char)
    (ha : isWordChar a = true) (hb : isWordChar b = true)
    (hc : isWordChar c = true) (hd : isWordChar d = true) :
    grabWordChars 4 ([a, b, c, d] ++ t) = some ([a, b, c, d], t) := by
  simpa using grabWordChars_append (m := [a, b, c, d]) t (by
    intro x hx
    simp at hx
    rcases hx with rfl | rfl | rfl | rfl <;> assumption)

theorem grabWordChars_four_none {a b c : Char} {t : List Char}
    (ha : isWordChar a = true) (hb : isWordChar b = true) (hc : isWordChar c = true)
    (ht : ∀ x, t.head? = some x → isWordChar x = false) :
    grabWordChars 4 ([a, b, c] ++ t) = none := by
  simpa using grabWordChars_extra_none (m := [a, b, c]) 0 (by
    intro x hx
    simp at hx
    rcases hx with rfl | rfl | rfl <;> assumption) ht

theorem grabDigits_four {d1 d2 d3 d4 : Char} (t : List Char)
    (h1 : isDigitChar d1 = true) (h2 : isDigitChar d2 = true)
    (h3 : isDigitChar d3 = true) (h4 : isDigitChar d4 = true) :
    grabDigits 4 ([d1, d2, d3, d4] ++ t) = some ([d1, d2, d3, d4], t) := by
  simpa using grabDigits_append (y := [d1, d2, d3, d4]) t (by
    intro x hx
    simp at hx
    rcases hx with rfl | rfl | rfl | rfl <;> assumption)

theorem map_cons2 {f : Char → Char} {l m : List Char} {u v : Char}
    (h : l.map f = u :: v :: m) :
    ∃ x y r, l = x :: y :: r ∧ f x = u ∧ f y = v ∧ r.map f = m := by
  match l with
  | [] => simp at h
  | [x] => simp at h
  | x :: y :: r =>
    simp only [List.map_cons, List.cons.injEq] at h
    exact ⟨x, y, r, rfl, h.1, h.2.1, h.2.2⟩

theorem map_cons3 {f : Char → Char} {l : List Char} {u v w : Char}
    (h : l.map f = [u, v, w]) :
    ∃ x y z, l = [x, y, z] ∧ f x = u ∧ f y = v ∧ f z = w := by
  obtain ⟨x, y, r, rfl, hx, hy, hr⟩ := map_cons2 h
  match r with
  | [z] =>
    simp only [List.map_cons, List.map_nil, List.cons.injEq, and_true] at hr
    exact ⟨x, y, z, rfl, hx, hy, hr⟩
  | [] => simp at hr
  | _ :: _ :: _ => simp at hr

theorem matchCaseless_qtr_of_qu {x1 x2 : Char} {rest : List Char}
    (hx1 : toLowerCh x1 = 'q') (hx2 : toLowerCh x2 = 'u') :
    matchCaseless ['q', 't', 'r'] (x1 :: x2 :: rest) = none := by
  rw [matchCaseless, if_pos (by rw [hx1]; decide)]
  rw [matchCaseless, if_neg (by rw [hx2]; decide)]

theorem matchCaseless_qtr_of_digit {d : Char} {rest : List Char}
    (hd : isDigitChar d = true) :
    matchCaseless ['q', 't', 'r'] (d :: rest) = none := by
  exact matchCaseless_cons_ne (by
    rw [show toLowerCh 'q' = 'q' from by decide]
    exact toLowerCh_digit_ne hd (by decide))

theorem matchCaseless_quarter_of_digit {d : Char} {rest : List Char}
    (hd : isDigitChar d = true) :
    matchCaseless ['q', 'u', 'a', 'r', 't', 'e', 'r'] (d :: rest) = none := by
  exact matchCaseless_cons_ne (by
    rw [show toLowerCh 'q' = 'q' from by decide]
    exact toLowerCh_digit_ne hd (by decide))

theorem matchQuarter_canonical {a b c d1 d2 d3 d4 : Char}
    (ha : isWordChar a = true) (hb : isWordChar b = true) (hc : isWordChar c = true)
    (h1 : isDigitChar d1 = true) (h2 : isDigitChar d2 = true)
    (h3 : isDigitChar d3 = true) (h4 : isDigitChar d4 = true) :
    matchQuarter ([a, b, c] ++ (' ' :: 'Q' :: 't' :: 'r' :: ' ' :: [d1, d2, d3, d4])) =
      some (⟨[a, b, c]⟩, ⟨[d1, d2, d3, d4]⟩) := by
  unfold matchQuarter
  rw [grabWordChars_three _ ha hb hc]
  simp only [Option.bind_eq_bind, Option.some_bind]
  rw [skipWs1_cons_space_head (by decide) (fun x hx => by cases hx; decide)]
  simp only [Option.some_bind]
  rw [show ('Q' :: 't' :: 'r' :: ' ' :: [d1, d2, d3, d4] : List Char) =
    ['Q', 't', 'r'] ++ (' ' :: [d1, d2, d3, d4]) from rfl]
  rw [matchCaseless_append (p := "qtr".data) (by rfl) (by decide)]
  simp only [Option.some_bind]
  rw [skipWs1_cons_space_head (by decide) (fun x hx => by
    cases hx; exact isDigitChar_not_space h1)]
  simp only [Option.some_bind]
  rw [show ([d1, d2, d3, d4] : List Char) = [d1, d2, d3, d4] ++ [] from by simp,
    grabDigits_four _ h1 h2 h3 h4]
  simp

theorem matchQuarter_quarter_block {a b c d1 d2 d3 d4 : Char} {q ws1 ws2 : List Char}
    (ha : isWordChar a = true) (hb : isWordChar b = true) (hc : isWordChar c = true)
    (hq : lowerList q = "quarter".data)
    (hws1 : ws1 ≠ []) (hws1a : ∀ x ∈ ws1, isSpaceChar x = true)
    (hws2 : ws2 ≠ []) (hws2a : ∀ x ∈ ws2, isSpaceChar x = true)
    (h1 : isDigitChar d1 = true) (h2 : isDigitChar d2 = true)
    (h3 : isDigitChar d3 = true) (h4 : isDigitChar d4 = true) :
    matchQuarter ([a, b, c] ++ (ws1 ++ (q ++ (ws2 ++ [d1, d2, d3, d4])))) =
      some (⟨[a, b, c]⟩, ⟨[d1, d2, d3, d4]⟩) := by
  have hq' : q.map toLowerCh = 'q' :: 'u' :: "arter".data := by
    rw [show ('q' :: 'u' :: "arter".data : List Char) = "quarter".data from rfl]
    exact hq
  obtain ⟨x1, x2, qr, rfl, hx1, hx2, hqr⟩ := map_cons2 hq'
  have hqlen : (x1 :: x2 :: qr).length = "quarter".data.length := by
    have := congrArg List.length hq
    simpa [lowerList] using this
  unfold matchQuarter
  rw [grabWordChars_three _ ha hb hc]
  simp only [Option.bind_eq_bind, Option.some_bind]
  rw [skipWs1_append hws1 hws1a (fun x hx => by
    simp at hx
    subst hx
    exact not_space_of_toLower_letter hx1 (by decide))]
  simp only [Option.some_bind]
  rw [show ((x1 :: x2 :: qr) ++ (ws2 ++ [d1, d2, d3, d4]) : List Char) =
    x1 :: x2 :: (qr ++ (ws2 ++ [d1, d2, d3, d4])) from by simp]
  rw [@matchCaseless_qtr_of_qu x1 x2 (qr ++ (ws2 ++ [d1, d2, d3, d4])) hx1 hx2]
  dsimp only
  rw [show (x1 :: x2 :: (qr ++ (ws2 ++ [d1, d2, d3, d4])) : List Char) =
    (x1 :: x2 :: qr) ++ (ws2 ++ [d1, d2, d3, d4]) from by simp]
  rw [matchCaseless_append (p := ['q', 'u', 'a', 'r', 't', 'e', 'r']) hqlen
    (by rw [show lowerList ['q', 'u', 'a', 'r', 't', 'e', 'r'] =
      ['q', 'u', 'a', 'r', 't', 'e', 'r'] from by decide]
        exact hq)]
  simp only [Option.some_bind]
  rw [skipWs1_append hws2 hws2a (fun x hx => by
    cases hx; exact isDigitChar_not_space h1)]
  simp only [Option.some_bind]
  rw [show ([d1, d2, d3, d4] : List Char) = [d1, d2, d3, d4] ++ [] from by simp,
    grabDigits_four _ h1 h2 h3 h4]
  simp

theorem matchQuarter_month3_none {a b c d1 : Char} {ws y : List Char}
    (ha : isWordChar a = true) (hb : isWordChar b = true) (hc : isWordChar c = true)
    (hws : ws ≠ []) (hwsa : ∀ x ∈ ws, isSpaceChar x = true)
    (hy : y = d1 :: y.tail) (hd1 : isDigitChar d1 = true) :
    matchQuarter ([a, b, c] ++ (ws ++ y)) = none := by
  unfold matchQuarter
  rw [grabWordChars_three _ ha hb hc]
  simp only [Option.bind_eq_bind, Option.some_bind]
  rw [skipWs1_append hws hwsa (fun x hx => by
    rw [hy] at hx
    cases hx
    exact isDigitChar_not_space hd1)]
  simp only [Option.some_bind]
  rw [hy, matchCaseless_qtr_of_digit hd1]
  dsimp only
  rw [matchCaseless_quarter_of_digit hd1]
  rfl

theorem matchQuarter_june_none {ws y : List Char} :
    matchQuarter (['J', 'u', 'n', 'e'] ++ (ws ++ y)) = none := by
  unfold matchQuarter
  rw [show (['J', 'u', 'n', 'e'] ++ (ws ++ y) : List Char) =
    ['J', 'u', 'n'] ++ ('e' :: (ws ++ y)) from rfl]
  rw [grabWordChars_three _ (by decide) (by decide) (by decide)]
  simp only [Option.bind_eq_bind, Option.some_bind]
  rw [skipWs1_none_of_head (by decide)]
  rfl

theorem monthYearAt_three {a b c d1 d2 d3 d4 : Char} {ws : List Char}
    (ha : isWordChar a = true) (hb : isWordChar b = true) (hc : isWordChar c = true)
    (hws : ws ≠ []) (hwsa : ∀ x ∈ ws, isSpaceChar x = true)
    (h1 : isDigitChar d1 = true) (h2 : isDigitChar d2 = true)
    (h3 : isDigitChar d3 = true) (h4 : isDigitChar d4 = true) :
    monthYearAt 3 ([a, b, c] ++ (ws ++ [d1, d2, d3, d4])) =
      some (⟨[a, b, c]⟩, ⟨[d1, d2, d3, d4]⟩) := by
  unfold monthYearAt
  rw [grabWordChars_three _ ha hb hc]
  simp only [Option.bind_eq_bind, Option.some_bind]
  rw [skipWs1_append hws hwsa (fun x hx => by
    cases hx; exact isDigitChar_not_space h1)]
  simp only [Option.some_bind]
  rw [show ([d1, d2, d3, d4] : List Char) = [d1, d2, d3, d4] ++ [] from by simp,
    grabDigits_four _ h1 h2 h3 h4]
  simp

theorem matchMonthYear_three {a b c d1 d2 d3 d4 : Char} {ws : List Char}
    (ha : isWordChar a = true) (hb : isWordChar b = true) (hc : isWordChar c = true)
    (hws : ws ≠ []) (hwsa : ∀ x ∈ ws, isSpaceChar x = true)
    (h1 : isDigitChar d1 = true) (h2 : isDigitChar d2 = true)
    (h3 : isDigitChar d3 = true) (h4 : isDigitChar d4 = true) :
    matchMonthYear ([a, b, c] ++ (ws ++ [d1, d2, d3, d4])) =
      some (⟨[a, b, c]⟩, ⟨[d1, d2, d3, d4]⟩) := by
  obtain ⟨w, ws', rfl⟩ : ∃ w ws', ws = w :: ws' := by
    cases ws with
    | nil => exact absurd rfl hws
    | cons w ws' => exact ⟨w, ws', rfl⟩
  unfold matchMonthYear
  rw [show monthYearAt 4 ([a, b, c] ++ ((w :: ws') ++ [d1, d2, d3, d4])) = none from by
    unfold monthYearAt
    rw [grabWordChars_four_none ha hb hc (fun x hx => by
      simp only [List.cons_append, List.head?_cons, Option.some.injEq] at hx
      subst hx
      exact isSpaceChar_not_word (hwsa w (by simp)))]
    rfl]
  exact monthYearAt_three ha hb hc (by simp) hwsa h1 h2 h3 h4

theorem matchMonthYear_june {d1 d2 d3 d4 : Char} {ws : List Char}
    (hws : ws ≠ []) (hwsa : ∀ x ∈ ws, isSpaceChar x = true)
    (h1 : isDigitChar d1 = true) (h2 : isDigitChar d2 = true)
    (h3 : isDigitChar d3 = true) (h4 : isDigitChar d4 = true) :
    matchMonthYear (['J', 'u', 'n', 'e'] ++ (ws ++ [d1, d2, d3, d4])) =
      some (⟨['J', 'u', 'n', 'e']⟩, ⟨[d1, d2, d3, d4]⟩) := by
  unfold matchMonthYear monthYearAt
  rw [grabWordChars_four _ (by decide) (by decide) (by decide) (by decide)]
  simp only [Option.bind_eq_bind, Option.some_bind]
  rw [skipWs1_append hws hwsa (fun x hx => by
    cases hx; exact isDigitChar_not_space h1)]
  simp only [Option.some_bind]
  rw [show ([d1, d2, d3, d4] : List Char) = [d1, d2, d3, d4] ++ [] from by simp,
    grabDigits_four _ h1 h2 h3 h4]
  simp

/-! ## Period-string scenarios: quarter and month shapes -/

theorem parsePeriod_qtr_scenario {a b c x1 x2 x3 d1 d2 d3 d4 : Char} {ws1 ws2 : List Char}
    (ha : isWordChar a = true) (hb : isWordChar b = true) (hc : isWordChar c = true)
    (hx1 : toLowerCh x1 = 'q') (hx2 : toLowerCh x2 = 't') (hx3 : toLowerCh x3 = 'r')
    (hws1 : ws1 ≠ []) (hws1a : ∀ x ∈ ws1, isSpaceChar x = true)
    (hws2 : ws2 ≠ []) (hws2a : ∀ x ∈ ws2, isSpaceChar x = true)
    (hd1 : isDigitChar d1 = true) (hd2 : isDigitChar d2 = true)
    (hd3 : isDigitChar d3 = true) (hd4 : isDigitChar d4 = true) :
    parsePeriodToDatetime ⟨[a, b, c] ++ (ws1 ++ ([x1, x2, x3] ++ (ws2 ++ [d1, d2, d3, d4])))⟩ =
      some (⟨[d1, d2, d3, d4]⟩ ++ "-" ++ mapGetD quarterMonthMap ⟨[a, b, c]⟩ "01" ++
        "-01T00:00:00") := by
  have hq3 : lowerList [x1, x2, x3] = "qtr".data := by
    simp only [lowerList, List.map_cons, List.map_nil, hx1, hx2, hx3]
  have habc : ∀ x ∈ ([a, b, c] : List Char), isSpaceChar x = false := by
    intro x hx
    simp at hx
    rcases hx with rfl | rfl | rfl <;> exact isWordChar_not_space (by assumption)
  have hdig : ∀ x ∈ ([d1, d2, d3, d4] : List Char), isSpaceChar x = false := by
    intro x hx
    simp at hx
    rcases hx with rfl | rfl | rfl | rfl <;> exact isDigitChar_not_space (by assumption)
  have hL : ([a, b, c] ++ (ws1 ++ ([x1, x2, x3] ++ (ws2 ++ [d1, d2, d3, d4]))) : List Char)
      = a :: (([b, c] ++ (ws1 ++ ([x1, x2, x3] ++ (ws2 ++ [d1, d2, d3])))) ++ [d4]) := by
    simp
  have hstrip : stripList ([a, b, c] ++ (ws1 ++ ([x1, x2, x3] ++ (ws2 ++ [d1, d2, d3, d4]))))
      = [a, b, c] ++ (ws1 ++ ([x1, x2, x3] ++ (ws2 ++ [d1, d2, d3, d4]))) := by
    rw [hL, stripList_wrap _ (isWordChar_not_space ha) (isDigitChar_not_space hd4)]
  have hsub : subQtrAux ([a, b, c] ++ (ws1 ++ ([x1, x2, x3] ++ (ws2 ++ [d1, d2, d3, d4]))))
      = [a, b, c] ++ (" Qtr ".data ++ [d1, d2, d3, d4]) := by
    rw [subQtrAux_append_nonws _ habc]
    rw [subQtrAux_match_block hws1 hws1a (by rfl) hq3
      (fun x hx => by
        cases hx
        exact not_space_of_toLower_letter hx1 (by decide))
      hws2 hws2a
      (fun x hx => by cases hx; exact isDigitChar_not_space hd1)]
    rw [subQtrAux_all_nonws hdig]
  unfold parsePeriodToDatetime pyStrip subQtr
  dsimp only
  rw [hstrip, hsub]
  rw [show ((" Qtr ".data ++ [d1, d2, d3, d4] : List Char) =
    ' ' :: 'Q' :: 't' :: 'r' :: ' ' :: [d1, d2, d3, d4]) from rfl]
  rw [matchQuarter_canonical ha hb hc hd1 hd2 hd3 hd4]

theorem parsePeriod_quarter_scenario {a b c d1 d2 d3 d4 : Char} {q ws1 ws2 : List Char}
    (ha : isWordChar a = true) (hb : isWordChar b = true) (hc : isWordChar c = true)
    (hq : lowerList q = "quarter".data)
    (hws1 : ws1 ≠ []) (hws1a : ∀ x ∈ ws1, isSpaceChar x = true)
    (hws2 : ws2 ≠ []) (hws2a : ∀ x ∈ ws2, isSpaceChar x = true)
    (hd1 : isDigitChar d1 = true) (hd2 : isDigitChar d2 = true)
    (hd3 : isDigitChar d3 = true) (hd4 : isDigitChar d4 = true) :
    parsePeriodToDatetime ⟨[a, b, c] ++ (ws1 ++ (q ++ (ws2 ++ [d1, d2, d3, d4])))⟩ =
      some (⟨[d1, d2, d3, d4]⟩ ++ "-" ++ mapGetD quarterMonthMap ⟨[a, b, c]⟩ "01" ++
        "-01T00:00:00") := by
  have hq' : q.map toLowerCh = 'q' :: 'u' :: "arter".data := by
    rw [show ('q' :: 'u' :: "arter".data : List Char) = "quarter".data from rfl]
    exact hq
  obtain ⟨x1, x2, qr, rfl, hx1, hx2, hqr⟩ := map_cons2 hq'
  have hqletters : ∀ ch ∈ "quarter".data, 97 ≤ ch.toNat ∧ ch.toNat ≤ 122 := by decide
  have hqnonws : ∀ x ∈ (x1 :: x2 :: qr), isSpaceChar x = false := by
    intro x hx
    have : toLowerCh x ∈ "quarter".data := by
      rw [← hq]
      exact List.mem_map_of_mem toLowerCh hx
    exact not_space_of_toLower_letter rfl (hqletters _ this)
  have habc : ∀ x ∈ ([a, b, c] : List Char), isSpaceChar x = false := by
    intro x hx
    simp at hx
    rcases hx with rfl | rfl | rfl <;> exact isWordChar_not_space (by assumption)
  have hdig : ∀ x ∈ ([d1, d2, d3, d4] : List Char), isSpaceChar x = false := by
    intro x hx
    simp at hx
    rcases hx with rfl | rfl | rfl | rfl <;> exact isDigitChar_not_space (by assumption)
  have hqtrfail : matchCaseless "qtr".data ((x1 :: x2 :: qr) ++ (ws2 ++ [d1, d2, d3, d4]))
      = none := by
    rw [show ((x1 :: x2 :: qr) ++ (ws2 ++ [d1, d2, d3, d4]) : List Char) =
      x1 :: x2 :: (qr ++ (ws2 ++ [d1, d2, d3, d4])) from by simp]
    exact matchCaseless_qtr_of_qu hx1 hx2
  have hL : ([a, b, c] ++ (ws1 ++ ((x1 :: x2 :: qr) ++ (ws2 ++ [d1, d2, d3, d4]))) : List Char)
      = a :: (([b, c] ++ (ws1 ++ ((x1 :: x2 :: qr) ++ (ws2 ++ [d1, d2, d3])))) ++ [d4]) := by
    simp
  have hstrip :
      stripList ([a, b, c] ++ (ws1 ++ ((x1 :: x2 :: qr) ++ (ws2 ++ [d1, d2, d3, d4]))))
      = [a, b, c] ++ (ws1 ++ ((x1 :: x2 :: qr) ++ (ws2 ++ [d1, d2, d3, d4]))) := by
    rw [hL, stripList_wrap _ (isWordChar_not_space ha) (isDigitChar_not_space hd4)]
  have hsub : subQtrAux ([a, b, c] ++ (ws1 ++ ((x1 :: x2 :: qr) ++ (ws2 ++ [d1, d2, d3, d4]))))
      = [a, b, c] ++ (ws1 ++ ((x1 :: x2 :: qr) ++ (ws2 ++ [d1, d2, d3, d4]))) := by
    rw [subQtrAux_append_nonws _ habc]
    rw [subQtrAux_ws_block hws1a (fun x hx => by
        simp only [List.cons_append, List.head?_cons, Option.some.injEq] at hx
        subst hx
        exact hqnonws x1 (by simp)) hqtrfail]
    rw [subQtrAux_append_nonws _ hqnonws]
    rw [subQtrAux_ws_block hws2a
      (fun x hx => by cases hx; exact isDigitChar_not_space hd1)
      (matchCaseless_qtr_of_digit hd1)]
    rw [subQtrAux_all_nonws hdig]
  unfold parsePeriodToDatetime pyStrip subQtr
  dsimp only
  rw [hstrip, hsub]
  rw [matchQuarter_quarter_block ha hb hc hq hws1 hws1a hws2 hws2a hd1 hd2 hd3 hd4]

theorem parsePeriod_month3_scenario {a b c d1 d2 d3 d4 : Char} {ws : List Char}
    (ha : isWordChar a = true) (hb : isWordChar b = true) (hc : isWordChar c = true)
    (hws : ws ≠ []) (hwsa : ∀ x ∈ ws, isSpaceChar x = true)
    (hd1 : isDigitChar d1 = true) (hd2 : isDigitChar d2 = true)
    (hd3 : isDigitChar d3 = true) (hd4 : isDigitChar d4 = true) :
    parsePeriodToDatetime ⟨[a, b, c] ++ (ws ++ [d1, d2, d3, d4])⟩ =
      some (⟨[d1, d2, d3, d4]⟩ ++ "-" ++ mapGetD fullMonthMap ⟨[a, b, c]⟩ "01" ++
        "-01T00:00:00") := by
  have habc : ∀ x ∈ ([a, b, c] : List Char), isSpaceChar x = false := by
    intro x hx
    simp at hx
    rcases hx with rfl | rfl | rfl <;> exact isWordChar_not_space (by assumption)
  have hdig : ∀ x ∈ ([d1, d2, d3, d4] : List Char), isSpaceChar x = false := by
    intro x hx
    simp at hx
    rcases hx with rfl | rfl | rfl | rfl <;> exact isDigitChar_not_space (by assumption)
  have hL : ([a, b, c] ++ (ws ++ [d1, d2, d3, d4]) : List Char)
      = a :: (([b, c] ++ (ws ++ [d1, d2, d3])) ++ [d4]) := by
    simp
  have hstrip : stripList ([a, b, c] ++ (ws ++ [d1, d2, d3, d4]))
      = [a, b, c] ++ (ws ++ [d1, d2, d3, d4]) := by
    rw [hL, stripList_wrap _ (isWordChar_not_space ha) (isDigitChar_not_space hd4)]
  have hsub : subQtrAux ([a, b, c] ++ (ws ++ [d1, d2, d3, d4]))
      = [a, b, c] ++ (ws ++ [d1, d2, d3, d4]) := by
    rw [subQtrAux_append_nonws _ habc]
    rw [subQtrAux_ws_block hwsa
      (fun x hx => by cases hx; exact isDigitChar_not_space hd1)
      (matchCaseless_qtr_of_digit hd1)]
    rw [subQtrAux_all_nonws hdig]
  unfold parsePeriodToDatetime pyStrip subQtr
  dsimp only
  rw [hstrip, hsub]
  rw [matchQuarter_month3_none ha hb hc hws hwsa (by rfl) hd1]
  dsimp only
  rw [matchMonthYear_three ha hb hc hws hwsa hd1 hd2 hd3 hd4]

theorem parsePeriod_june_scenario {d1 d2 d3 d4 : Char} {ws : List Char}
    (hws : ws ≠ []) (hwsa : ∀ x ∈ ws, isSpaceChar x = true)
    (hd1 : isDigitChar d1 = true) (hd2 : isDigitChar d2 = true)
    (hd3 : isDigitChar d3 = true) (hd4 : isDigitChar d4 = true) :
    parsePeriodToDatetime ⟨['J', 'u', 'n', 'e'] ++ (ws ++ [d1, d2, d3, d4])⟩ =
      some (⟨[d1, d2, d3, d4]⟩ ++ "-" ++ mapGetD fullMonthMap ⟨['J', 'u', 'n', 'e']⟩ "01" ++
        "-01T00:00:00") := by
  have hjune : ∀ x ∈ (['J', 'u', 'n', 'e'] : List Char), isSpaceChar x = false := by
    decide
  have hdig : ∀ x ∈ ([d1, d2, d3, d4] : List Char), isSpaceChar x = false := by
    intro x hx
    simp at hx
    rcases hx with rfl | rfl | rfl | rfl <;> exact isDigitChar_not_space (by assumption)
  have hL : (['J', 'u', 'n', 'e'] ++ (ws ++ [d1, d2, d3, d4]) : List Char)
      = 'J' :: ((['u', 'n', 'e'] ++ (ws ++ [d1, d2, d3])) ++ [d4]) := by
    simp
  have hstrip : stripList (['J', 'u', 'n', 'e'] ++ (ws ++ [d1, d2, d3, d4]))
      = ['J', 'u', 'n', 'e'] ++ (ws ++ [d1, d2, d3, d4]) := by
    rw [hL, stripList_wrap _ (by decide) (isDigitChar_not_space hd4)]
  have hsub : subQtrAux (['J', 'u', 'n', 'e'] ++ (ws ++ [d1, d2, d3, d4]))
      = ['J', 'u', 'n', 'e'] ++ (ws ++ [d1, d2, d3, d4]) := by
    rw [subQtrAux_append_nonws _ hjune]
    rw [subQtrAux_ws_block hwsa
      (fun x hx => by cases hx; exact isDigitChar_not_space hd1)
      (matchCaseless_qtr_of_digit hd1)]
    rw [subQtrAux_all_nonws hdig]
  unfold parsePeriodToDatetime pyStrip subQtr
  dsimp only
  rw [hstrip, hsub]
  rw [matchQuarter_june_none]
  dsimp only
  rw [matchMonthYear_june hws hwsa hd1 hd2 hd3 hd4]

/-! ## Frequency-detection scenarios -/

theorem q_notin_lower_parts {m ws y : List Char}
    (hm : 'q' ∉ lowerList m)
    (hws : ∀ x ∈ ws, isSpaceChar x = true)
    (hy : ∀ x ∈ y, isDigitChar x = true) :
    'q' ∉ lowerList (m ++ (ws ++ y)) := by
  simp only [lowerList, List.map_append, List.mem_append]
  rintro (h | h | h)
  · exact hm (by simpa [lowerList] using h)
  · obtain ⟨x, hx, hxe⟩ := List.mem_map.mp h
    exact toLowerCh_space_ne (hws x hx) (by decide) hxe
  · obtain ⟨x, hx, hxe⟩ := List.mem_map.mp h
    exact toLowerCh_digit_ne (hy x hx) (by decide) hxe

theorem detectFrequency_quarterly_scenario {hd : Char} {pre q post : List Char}
    (hq : lowerList q = "qtr".data ∨ lowerList q = "quarter".data) :
    detectFrequency ⟨hd :: (pre ++ (q ++ post))⟩ = "quarterly" := by
  unfold detectFrequency
  rw [if_neg (strMk_ne_empty)]
  rw [if_pos]
  unfold toLowerStr strContains
  dsimp only
  rcases hq with hq | hq
  · left
    show occursIn "qtr".data (lowerList (hd :: (pre ++ (q ++ post)))) = true
    rw [show lowerList (hd :: (pre ++ (q ++ post)))
      = (lowerList [hd] ++ lowerList pre) ++ (lowerList q ++ lowerList post) from by
        simp [lowerList]]
    rw [hq]
    exact occursIn_at _ _ _
  · right
    show occursIn "quarter".data (lowerList (hd :: (pre ++ (q ++ post)))) = true
    rw [show lowerList (hd :: (pre ++ (q ++ post)))
      = (lowerList [hd] ++ lowerList pre) ++ (lowerList q ++ lowerList post) from by
        simp [lowerList]]
    rw [hq]
    exact occursIn_at _ _ _

theorem detectFrequency_monthly_scenario {m ws y : List Char} {hd : Char} {tl : List Char}
    (hcons : m ++ (ws ++ y) = hd :: tl)
    (hqm : 'q' ∉ lowerList m)
    (hkey : (⟨lowerList m⟩ : String) ∈ monthKeywords)
    (hws : ∀ x ∈ ws, isSpaceChar x = true)
    (hy : ∀ x ∈ y, isDigitChar x = true) :
    detectFrequency ⟨m ++ (ws ++ y)⟩ = "monthly" := by
  have hnq : 'q' ∉ lowerList (m ++ (ws ++ y)) := q_notin_lower_parts hqm hws hy
  unfold detectFrequency
  rw [if_neg (by rw [hcons]; exact strMk_ne_empty)]
  rw [if_neg (by
    unfold toLowerStr strContains
    dsimp only
    rintro (h | h)
    · exact hnq (mem_of_occursIn (by exact h))
    · exact hnq (mem_of_occursIn (by exact h)))]
  rw [if_pos]
  exact List.any_eq_true.mpr ⟨⟨lowerList m⟩, hkey, by
    unfold toLowerStr strContains
    dsimp only
    rw [show lowerList (m ++ (ws ++ y)) = lowerList m ++ lowerList (ws ++ y) from by
      simp [lowerList]]
    exact occursIn_self_append _ _⟩

theorem mapGetD_quarterMap (a b c : Char) :
    mapGetD quarterMonthMap ⟨[a, b, c]⟩ "01" =
      if ([a, b, c] : List Char) = ['M', 'a', 'r'] then "03"
      else if ([a, b, c] : List Char) = ['J', 'u', 'n'] then "06"
      else if ([a, b, c] : List Char) = ['S', 'e', 'p'] then "09"
      else if ([a, b, c] : List Char) = ['D', 'e', 'c'] then "12"
      else "01" := by
  have hmk : ∀ l m : List Char, (String.mk l = String.mk m) = (l = m) := by
    intro l m
    simp [String.ext_iff]
  by_cases h1 : ([a, b, c] : List Char) = ['M', 'a', 'r']
  · simp only [h1, if_pos rfl]
    rw [show (⟨['M', 'a', 'r']⟩ : String) = "Mar" from rfl]
    decide
  by_cases h2 : ([a, b, c] : List Char) = ['J', 'u', 'n']
  · simp only [h2, if_neg (by rw [h2] at h1; exact h1), if_pos rfl]
    rw [show (⟨['J', 'u', 'n']⟩ : String) = "Jun" from rfl]
    decide
  by_cases h3 : ([a, b, c] : List Char) = ['S', 'e', 'p']
  · simp only [h3, if_neg (by rw [h3] at h1; exact h1),
      if_neg (by rw [h3] at h2; exact h2), if_pos rfl]
    rw [show (⟨['S', 'e', 'p']⟩ : String) = "Sep" from rfl]
    decide
  by_cases h4 : ([a, b, c] : List Char) = ['D', 'e', 'c']
  · simp only [h4, if_neg (by rw [h4] at h1; exact h1),
      if_neg (by rw [h4] at h2; exact h2), if_neg (by rw [h4] at h3; exact h3),
      if_pos rfl]
    rw [show (⟨['D', 'e', 'c']⟩ : String) = "Dec" from rfl]
    decide
  rw [if_neg h1, if_neg h2, if_neg h3, if_neg h4]
  unfold mapGetD quarterMonthMap
  rw [List.find?_cons_of_neg _ (by
    simp only [decide_eq_true_eq, hmk]
    exact fun h => h1 ((show "Mar".data = ['M', 'a', 'r'] from rfl) ▸ h.symm))]
  rw [List.find?_cons_of_neg _ (by
    simp only [decide_eq_true_eq, hmk]
    exact fun h => h2 ((show "Jun".data = ['J', 'u', 'n'] from rfl) ▸ h.symm))]
  rw [List.find?_cons_of_neg _ (by
    simp only [decide_eq_true_eq, hmk]
    exact fun h => h3 ((show "Sep".data = ['S', 'e', 'p'] from rfl) ▸ h.symm))]
  rw [List.find?_cons_of_neg _ (by
    simp only [decide_eq_true_eq, hmk]
    exact fun h => h4 ((show "Dec".data = ['D', 'e', 'c'] from rfl) ▸ h.symm))]
  rfl

/-! ## Claim C1 -/

/-- C1, counterexample: the claim asserts that every case-insensitive
`<3-letter-month> Qtr <year>` period maps to a quarter-start month in
{03, 06, 09, 12}, but the month lookup of `_parse_period_to_datetime` is
case-sensitive: for the input `"mar Qtr 2025"` the frequency is
`quarterly` as claimed, yet the derived date falls back to month `01`,
which is none of the four claimed months. -/
theorem c1_counterexample :
    detectFrequency "mar Qtr 2025" = "quarterly" ∧
    parsePeriodToDatetime "mar Qtr 2025" = some "2025-01-01T00:00:00" ∧
    ("2025-01-01T00:00:00" : String) ∉
      (["2025-03-01T00:00:00", "2025-06-01T00:00:00",
        "2025-09-01T00:00:00", "2025-12-01T00:00:00"] : List String) :=
  ⟨by decide, by decide, by decide⟩

/-- C1, amended: for every period string of the form
`<3-letter-month-token> <qtr-token> <year>` — three word characters, a
nonempty whitespace run, any case variant of `Qtr` or `Quarter`, a
nonempty whitespace run, and four digits — `_detect_frequency` returns
`quarterly`, and `_parse_period_to_datetime` returns
`<year>-<MM>-01T00:00:00` where `MM` is 03/06/09/12 when the month token
is exactly `Mar`/`Jun`/`Sep`/`Dec` (case-sensitively) and `01` for any
other token, including other casings of those four months. -/
theorem c1_quarter_period (a b c : Char)
    (ha : isWordChar a = true) (hb : isWordChar b = true) (hc : isWordChar c = true)
    (q ws1 ws2 : List Char)
    (hq : lowerList q = "qtr".data ∨ lowerList q = "quarter".data)
    (hws1 : ws1 ≠ []) (hws1a : ∀ x ∈ ws1, isSpaceChar x = true)
    (hws2 : ws2 ≠ []) (hws2a : ∀ x ∈ ws2, isSpaceChar x = true)
    (d1 d2 d3 d4 : Char)
    (hd1 : isDigitChar d1 = true) (hd2 : isDigitChar d2 = true)
    (hd3 : isDigitChar d3 = true) (hd4 : isDigitChar d4 = true) :
    detectFrequency ⟨[a, b, c] ++ (ws1 ++ (q ++ (ws2 ++ [d1, d2, d3, d4])))⟩ =
      "quarterly" ∧
    parsePeriodToDatetime ⟨[a, b, c] ++ (ws1 ++ (q ++ (ws2 ++ [d1, d2, d3, d4])))⟩ =
      some (⟨[d1, d2, d3, d4]⟩ ++ "-" ++
        (if ([a, b, c] : List Char) = ['M', 'a', 'r'] then "03"
         else if ([a, b, c] : List Char) = ['J', 'u', 'n'] then "06"
         else if ([a, b, c] : List Char) = ['S', 'e', 'p'] then "09"
         else if ([a, b, c] : List Char) = ['D', 'e', 'c'] then "12"
         else "01") ++ "-01T00:00:00") := by
  constructor
  · rw [show ([a, b, c] ++ (ws1 ++ (q ++ (ws2 ++ [d1, d2, d3, d4]))) : List Char)
      = a :: (([b, c] ++ ws1) ++ (q ++ (ws2 ++ [d1, d2, d3, d4]))) from by simp]
    exact detectFrequency_quarterly_scenario hq
  · rw [← mapGetD_quarterMap]
    rcases hq with hq | hq
    · have hq3 : q.map toLowerCh = 'q' :: 't' :: "r".data := by
        rw [show ('q' :: 't' :: "r".data : List Char) = "qtr".data from rfl]
        exact hq
      obtain ⟨x1, x2, qr, rfl, hx1, hx2, hqr⟩ := map_cons2 hq3
      obtain ⟨x3, rfl, hx3⟩ : ∃ x3, qr = [x3] ∧ toLowerCh x3 = 'r' := by
        match qr with
        | [x3] =>
          simp only [List.map_cons, List.map_nil] at hqr
          exact ⟨x3, rfl, by
            have : ([toLowerCh x3] : List Char) = "r".data := hqr
            simpa using this⟩
        | [] => simp at hqr
        | _ :: _ :: _ =>
          exfalso
          have := congrArg List.length hqr
          simp at this
      exact parsePeriod_qtr_scenario ha hb hc hx1 hx2 hx3 hws1 hws1a hws2 hws2a
        hd1 hd2 hd3 hd4
    · exact parsePeriod_quarter_scenario ha hb hc hq hws1 hws1a hws2 hws2a
        hd1 hd2 hd3 hd4

/-- C1, witness: the amended statement applied to the concrete period
`"Mar Qtr 2025"`, whose month token is exactly `Mar`. -/
theorem c1_quarter_period_witness :
    detectFrequency "Mar Qtr 2025" = "quarterly" ∧
    parsePeriodToDatetime "Mar Qtr 2025" = some "2025-03-01T00:00:00" := by
  have h := c1_quarter_period 'M' 'a' 'r' (by decide) (by decide) (by decide)
    ['Q', 't', 'r'] [' '] [' '] (Or.inl (by decide)) (by decide) (by decide)
    (by decide) (by decide) '2' '0' '2' '5'
    (by decide) (by decide) (by decide) (by decide)
  exact ⟨h.1, h.2.trans (by decide)⟩

/-! ## Claim C8 -/

theorem month3_case {a b c d1 d2 d3 d4 : Char} {ws : List Char} {mm : String}
    (ha : isWordChar a = true) (hb : isWordChar b = true) (hc : isWordChar c = true)
    (hqm : 'q' ∉ lowerList [a, b, c])
    (hkey : (⟨lowerList [a, b, c]⟩ : String) ∈ monthKeywords)
    (hmap : mapGetD fullMonthMap ⟨[a, b, c]⟩ "01" = mm)
    (hws : ws ≠ []) (hwsa : ∀ x ∈ ws, isSpaceChar x = true)
    (hd1 : isDigitChar d1 = true) (hd2 : isDigitChar d2 = true)
    (hd3 : isDigitChar d3 = true) (hd4 : isDigitChar d4 = true) :
    detectFrequency ⟨[a, b, c] ++ (ws ++ [d1, d2, d3, d4])⟩ = "monthly" ∧
    parsePeriodToDatetime ⟨[a, b, c] ++ (ws ++ [d1, d2, d3, d4])⟩ =
      some (⟨[d1, d2, d3, d4]⟩ ++ "-" ++ mm ++ "-01T00:00:00") := by
  have hy : ∀ x ∈ ([d1, d2, d3, d4] : List Char), isDigitChar x = true := by
    intro x hx
    simp at hx
    rcases hx with rfl | rfl | rfl | rfl <;> assumption
  constructor
  · exact detectFrequency_monthly_scenario
      (by rw [show ([a, b, c] ++ (ws ++ [d1, d2, d3, d4]) : List Char)
        = a :: ([b, c] ++ (ws ++ [d1, d2, d3, d4])) from by simp])
      hqm hkey hwsa hy
  · exact (parsePeriod_month3_scenario ha hb hc hws hwsa hd1 hd2 hd3 hd4).trans
      (by rw [hmap])

/-- C8: for every month token that is a key of the full month map of
`_parse_period_to_datetime` (`Jan` … `Dec` and `June`, exact casing)
followed by a nonempty whitespace run and a 4-digit year,
`_parse_period_to_datetime` returns `<year>-<month>-01T00:00:00` with the
month code the map assigns to that key, and `_detect_frequency`
classifies the string as `monthly`. -/
theorem c8_monthly_period :
    ∀ m mm : String, (m, mm) ∈ fullMonthMap →
    ∀ ws : List Char, ws ≠ [] → (∀ x ∈ ws, isSpaceChar x = true) →
    ∀ d1 d2 d3 d4 : Char,
    isDigitChar d1 = true → isDigitChar d2 = true →
    isDigitChar d3 = true → isDigitChar d4 = true →
    detectFrequency ⟨m.data ++ (ws ++ [d1, d2, d3, d4])⟩ = "monthly" ∧
    parsePeriodToDatetime ⟨m.data ++ (ws ++ [d1, d2, d3, d4])⟩ =
      some (⟨[d1, d2, d3, d4]⟩ ++ "-" ++ mm ++ "-01T00:00:00") := by
  intro m mm hmem ws hws hwsa d1 d2 d3 d4 hd1 hd2 hd3 hd4
  simp only [fullMonthMap, List.mem_cons, List.not_mem_nil, or_false,
    Prod.mk.injEq] at hmem
  rcases hmem with h | h | h | h | h | h | h | h | h | h | h | h | h <;>
    obtain ⟨rfl, rfl⟩ := h
  · exact month3_case (by decide) (by decide) (by decide) (by decide) (by decide)
      (by decide) hws hwsa hd1 hd2 hd3 hd4
  · exact month3_case (by decide) (by decide) (by decide) (by decide) (by decide)
      (by decide) hws hwsa hd1 hd2 hd3 hd4
  · exact month3_case (by decide) (by decide) (by decide) (by decide) (by decide)
      (by decide) hws hwsa hd1 hd2 hd3 hd4
  · exact month3_case (by decide) (by decide) (by decide) (by decide) (by decide)
      (by decide) hws hwsa hd1 hd2 hd3 hd4
  · exact month3_case (by decide) (by decide) (by decide) (by decide) (by decide)
      (by decide) hws hwsa hd1 hd2 hd3 hd4
  · exact month3_case (by decide) (by decide) (by decide) (by decide) (by decide)
      (by decide) hws hwsa hd1 hd2 hd3 hd4
  · constructor
    · exact detectFrequency_monthly_scenario
        (by rw [show ("June".data ++ (ws ++ [d1, d2, d3, d4]) : List Char)
          = 'J' :: (['u', 'n', 'e'] ++ (ws ++ [d1, d2, d3, d4])) from by simp])
        (by decide) (by decide) hwsa (by
          intro x hx
          simp at hx
          rcases hx with rfl | rfl | rfl | rfl <;> assumption)
    · exact (parsePeriod_june_scenario hws hwsa hd1 hd2 hd3 hd4).trans
        (by rw [show mapGetD fullMonthMap ⟨['J', 'u', 'n', 'e']⟩ "01" = "06" from by
          decide])
  · exact month3_case (by decide) (by decide) (by decide) (by decide) (by decide)
      (by decide) hws hwsa hd1 hd2 hd3 hd4
  · exact month3_case (by decide) (by decide) (by decide) (by decide) (by decide)
      (by decide) hws hwsa hd1 hd2 hd3 hd4
  · exact month3_case (by decide) (by decide) (by decide) (by decide) (by decide)
      (by decide) hws hwsa hd1 hd2 hd3 hd4
  · exact month3_case (by decide) (by decide) (by decide) (by decide) (by decide)
      (by decide) hws hwsa hd1 hd2 hd3 hd4
  · exact month3_case (by decide) (by decide) (by decide) (by decide) (by decide)
      (by decide) hws hwsa hd1 hd2 hd3 hd4
  · exact month3_case (by decide) (by decide) (by decide) (by decide) (by decide)
      (by decide) hws hwsa hd1 hd2 hd3 hd4

/-- C8, witness: the statement applied to the concrete period
`"May 2025"`. -/
theorem c8_monthly_period_witness :
    detectFrequency "May 2025" = "monthly" ∧
    parsePeriodToDatetime "May 2025" = some "2025-05-01T00:00:00" := by
  have h := c8_monthly_period "May" "05" (by decide) [' '] (by decide) (by decide)
    '2' '0' '2' '5' (by decide) (by decide) (by decide) (by decide)
  exact ⟨h.1, h.2.trans (by decide)⟩

/-! ## Row-parser facts -/

theorem extractCellValues_length (cells : List Cell) :
    (extractCellValues cells).length = cells.length := by
  simp [extractCellValues]

theorem rowRecord_eq_ite (cat : String) (row : TableRow) :
    rowRecord cat row =
      if 5 ≤ row.cells.length then
        some (buildRecord cat (extractCellValues row.cells)) else none := by
  unfold rowRecord
  by_cases h : 5 ≤ row.cells.length
  · rw [if_neg (by omega), if_pos (by rw [extractCellValues_length]; omega), if_pos h]
  · rw [if_pos (by omega), if_neg h]

theorem filterMap_rowRecord_length (cat : String) (l : List TableRow) :
    (l.filterMap (rowRecord cat)).length = l.countP (fun r => 5 ≤ r.cells.length) := by
  induction l with
  | nil => rfl
  | cons r rs ih =>
    rw [List.filterMap_cons, rowRecord_eq_ite, List.countP_cons]
    by_cases h : 5 ≤ r.cells.length
    · rw [if_pos h]
      simp only [List.length_cons, ih]
      rw [if_pos (by simp [h])]
    · rw [if_neg h]
      simp only [ih]
      rw [if_neg (by simp [h])]
      omega

theorem mem_parseTable {tbl : HtmlTable} {cat : String} {rec : IndicatorRecord}
    (h : rec ∈ parseTable tbl cat) :
    ∃ row ∈ tbl.rows.drop 1, 5 ≤ row.cells.length ∧ rowRecord cat row = some rec := by
  unfold parseTable at h
  split at h
  · simp at h
  · obtain ⟨row, hmem, heq⟩ := List.mem_filterMap.mp h
    refine ⟨row, hmem, ?_, heq⟩
    rw [rowRecord_eq_ite] at heq
    by_contra hlt
    rw [if_neg hlt] at heq
    cases heq

theorem countP_five_of_dichotomy (rest : List TableRow)
    (hdi : ∀ r ∈ rest, r.cells.length = 4 ∨ 5 ≤ r.cells.length) :
    rest.countP (fun r => 5 ≤ r.cells.length)
      = rest.length - rest.countP (fun r => r.cells.length = 4) := by
  induction rest with
  | nil => rfl
  | cons r rs ih =>
    have hr := hdi r (by simp)
    have hrs := ih (fun x hx => hdi x (by simp [hx]))
    have hle := List.countP_le_length (fun r : TableRow => decide (r.cells.length = 4))
      (l := rs)
    rw [List.countP_cons, List.countP_cons]
    rcases hr with h | h
    · rw [if_neg (by simp [h]), if_pos (by simp [h])]
      simp only [List.length_cons]
      omega
    · rw [if_pos (by simp [h]), if_neg (by simp; omega)]
      simp only [List.length_cons]
      omega

/-! ## Claim C10 -/

/-- C10: for every table with fewer than two rows (empty, or only a header
row), `_parse_table` returns the empty record list. -/
theorem c10_short_table (tbl : HtmlTable) (cat : String)
    (h : tbl.rows.length < 2) : parseTable tbl cat = [] := by
  unfold parseTable
  rw [if_pos h]

/-- C10, witness: the empty table and the header-only table both yield no
records. -/
theorem c10_short_table_witness :
    parseTable ⟨[]⟩ "Prices" = [] ∧
    parseTable ⟨[⟨[⟨"Indicator", ""⟩, ⟨"Period", ""⟩, ⟨"Unit", ""⟩, ⟨"Value", ""⟩,
      ⟨"Change", ""⟩]⟩]⟩ "Prices" = [] :=
  ⟨c10_short_table _ _ (by decide), c10_short_table _ _ (by decide)⟩

/-! ## Claim C9 -/

/-- C9: every record emitted by `_parse_table` originates from a
non-header row with at least 5 cells (first conjunct), and a row with
fewer than 5 cells produces no record and leaves the records of the
remaining rows unchanged (second conjunct: deleting such a row from the
table does not change the output). -/
theorem c9_row_guard :
    (∀ (tbl : HtmlTable) (cat : String) (rec : IndicatorRecord),
      rec ∈ parseTable tbl cat →
      ∃ row ∈ tbl.rows.drop 1, 5 ≤ row.cells.length ∧ rowRecord cat row = some rec) ∧
    (∀ (cat : String) (hdr r : TableRow) (pre post : List TableRow),
      r.cells.length < 5 →
      parseTable ⟨hdr :: (pre ++ r :: post)⟩ cat =
        parseTable ⟨hdr :: (pre ++ post)⟩ cat) := by
  constructor
  · intro tbl cat rec h
    exact mem_parseTable h
  · intro cat hdr r pre post hr
    have hnone : rowRecord cat r = none := by
      unfold rowRecord
      rw [if_pos hr]
    by_cases hpp : (pre ++ post : List TableRow) = []
    · obtain ⟨rfl, rfl⟩ := List.append_eq_nil.mp hpp
      unfold parseTable
      rw [if_neg (by simp), if_pos (by simp)]
      simp [hnone]
    · have hlen := List.length_pos.mpr hpp
      rw [List.length_append] at hlen
      unfold parseTable
      rw [if_neg (by simp; omega), if_neg (by simp; omega)]
      rw [List.drop_succ_cons, List.drop_succ_cons, List.drop_zero, List.drop_zero]
      rw [List.filterMap_append, List.filterMap_append, List.filterMap_cons, hnone]

/-- C9, witness: in a table whose sole 4-cell data row sits between two
5-cell data rows, the emitted records come from the 5-cell rows, and
deleting the 4-cell row leaves the output unchanged. -/
theorem c9_row_guard_witness :
    (∃ row ∈ (HtmlTable.mk [⟨[⟨"h", ""⟩, ⟨"h", ""⟩, ⟨"h", ""⟩, ⟨"h", ""⟩, ⟨"h", ""⟩]⟩,
        ⟨[⟨"A", ""⟩, ⟨"", ""⟩, ⟨"%", ""⟩, ⟨"na", ""⟩, ⟨"", ""⟩]⟩]).rows.drop 1,
      5 ≤ row.cells.length ∧
      rowRecord "Prices" row =
        some (buildRecord "Prices" (extractCellValues
          [⟨"A", ""⟩, ⟨"", ""⟩, ⟨"%", ""⟩, ⟨"na", ""⟩, ⟨"", ""⟩]))) ∧
    parseTable ⟨[⟨[⟨"h", ""⟩, ⟨"h", ""⟩, ⟨"h", ""⟩, ⟨"h", ""⟩, ⟨"h", ""⟩]⟩,
        ⟨[⟨"bad", ""⟩, ⟨"x", ""⟩, ⟨"y", ""⟩, ⟨"z", ""⟩]⟩,
        ⟨[⟨"A", ""⟩, ⟨"", ""⟩, ⟨"%", ""⟩, ⟨"na", ""⟩, ⟨"", ""⟩]⟩]⟩ "Prices" =
      parseTable ⟨[⟨[⟨"h", ""⟩, ⟨"h", ""⟩, ⟨"h", ""⟩, ⟨"h", ""⟩, ⟨"h", ""⟩]⟩,
        ⟨[⟨"A", ""⟩, ⟨"", ""⟩, ⟨"%", ""⟩, ⟨"na", ""⟩, ⟨"", ""⟩]⟩]⟩ "Prices" := by
  constructor
  · exact (c9_row_guard.1
      ⟨[⟨[⟨"h", ""⟩, ⟨"h", ""⟩, ⟨"h", ""⟩, ⟨"h", ""⟩, ⟨"h", ""⟩]⟩,
        ⟨[⟨"A", ""⟩, ⟨"", ""⟩, ⟨"%", ""⟩, ⟨"na", ""⟩, ⟨"", ""⟩]⟩]⟩ "Prices"
      (buildRecord "Prices" (extractCellValues
        [⟨"A", ""⟩, ⟨"", ""⟩, ⟨"%", ""⟩, ⟨"na", ""⟩, ⟨"", ""⟩]))
      (by decide))
  · exact c9_row_guard.2 "Prices" _ ⟨[⟨"bad", ""⟩, ⟨"x", ""⟩, ⟨"y", ""⟩, ⟨"z", ""⟩]⟩
      [] [⟨[⟨"A", ""⟩, ⟨"", ""⟩, ⟨"%", ""⟩, ⟨"na", ""⟩, ⟨"", ""⟩]⟩] (by decide)

/-! ## Claim C4 -/

/-- C4, counterexample: the claim predicts exactly 7 records from every
10-row table with 3 four-cell rows and the rest at least 5 cells, but the
first of the 10 rows is always skipped as the header: when the header
itself has 5 cells and the 3 four-cell rows are all data rows, only
9 - 3 = 6 records are emitted. -/
theorem c4_counterexample :
    ((HtmlTable.mk (⟨List.replicate 5 (Cell.mk "x" "")⟩ ::
        (List.replicate 3 ⟨List.replicate 4 (Cell.mk "x" "")⟩ ++
         List.replicate 6 ⟨List.replicate 5 (Cell.mk "x" "")⟩))).rows.length = 10 ∧
      (HtmlTable.mk (⟨List.replicate 5 (Cell.mk "x" "")⟩ ::
        (List.replicate 3 ⟨List.replicate 4 (Cell.mk "x" "")⟩ ++
         List.replicate 6 ⟨List.replicate 5 (Cell.mk "x" "")⟩))).rows.countP
          (fun r => r.cells.length = 4) = 3 ∧
      (HtmlTable.mk (⟨List.replicate 5 (Cell.mk "x" "")⟩ ::
        (List.replicate 3 ⟨List.replicate 4 (Cell.mk "x" "")⟩ ++
         List.replicate 6 ⟨List.replicate 5 (Cell.mk "x" "")⟩))).rows.all
          (fun r => r.cells.length = 4 ∨ 5 ≤ r.cells.length) = true) ∧
    (parseTable (HtmlTable.mk (⟨List.replicate 5 (Cell.mk "x" "")⟩ ::
        (List.replicate 3 ⟨List.replicate 4 (Cell.mk "x" "")⟩ ++
         List.replicate 6 ⟨List.replicate 5 (Cell.mk "x" "")⟩))) "Prices").length = 6 ∧
    (6 : Nat) ≠ 7 :=
  ⟨⟨by decide, by decide, by decide⟩, by decide, by decide⟩

/-- C4, amended: in a 10-row table in which exactly 3 rows have 4 cells
and every other row has at least 5 populated cells, each 4-cell row is
dropped and the first row is skipped as the header, so the parser emits
exactly 7 records when the header row is itself one of the 4-cell rows
and exactly 6 records when the header row has at least 5 cells. -/
theorem c4_malformed_rows :
    ∀ (tbl : HtmlTable) (cat : String) (hdr : TableRow) (rest : List TableRow),
      tbl.rows = hdr :: rest →
      tbl.rows.length = 10 →
      tbl.rows.countP (fun r => r.cells.length = 4) = 3 →
      (∀ r ∈ tbl.rows, r.cells.length = 4 ∨ 5 ≤ r.cells.length) →
      (parseTable tbl cat).length = if hdr.cells.length = 4 then 7 else 6 := by
  intro tbl cat hdr rest hrows hlen hcount hdi
  have h9 : rest.length = 9 := by
    rw [hrows] at hlen
    simp only [List.length_cons] at hlen
    omega
  have hguard : ¬ tbl.rows.length < 2 := by omega
  have hdirest : ∀ r ∈ rest, r.cells.length = 4 ∨ 5 ≤ r.cells.length := by
    intro r hr
    exact hdi r (by rw [hrows]; simp [hr])
  unfold parseTable
  rw [if_neg hguard, hrows, List.drop_succ_cons, List.drop_zero,
    filterMap_rowRecord_length, countP_five_of_dichotomy rest hdirest]
  rw [hrows, List.countP_cons] at hcount
  by_cases hh : hdr.cells.length = 4
  · rw [if_pos hh]
    rw [if_pos (by simp [hh])] at hcount
    omega
  · rw [if_neg hh]
    rw [if_neg (by simp [hh])] at hcount
    omega

/-- C4, witness: the amended statement applied to two concrete 10-row
tables with 3 four-cell rows each, one with a 4-cell header (7 records)
and one with a 5-cell header (6 records). -/
theorem c4_malformed_rows_witness :
    (parseTable (HtmlTable.mk (⟨List.replicate 4 (Cell.mk "x" "")⟩ ::
        (List.replicate 2 ⟨List.replicate 4 (Cell.mk "x" "")⟩ ++
         List.replicate 7 ⟨List.replicate 5 (Cell.mk "x" "")⟩))) "Prices").length = 7 ∧
    (parseTable (HtmlTable.mk (⟨List.replicate 5 (Cell.mk "x" "")⟩ ::
        (List.replicate 3 ⟨List.replicate 4 (Cell.mk "x" "")⟩ ++
         List.replicate 6 ⟨List.replicate 5 (Cell.mk "x" "")⟩))) "Prices").length = 6 := by
  constructor
  · refine (c4_malformed_rows
      (HtmlTable.mk (⟨List.replicate 4 (Cell.mk "x" "")⟩ ::
        (List.replicate 2 ⟨List.replicate 4 (Cell.mk "x" "")⟩ ++
         List.replicate 7 ⟨List.replicate 5 (Cell.mk "x" "")⟩)))
      "Prices" ⟨List.replicate 4 (Cell.mk "x" "")⟩
      (List.replicate 2 ⟨List.replicate 4 (Cell.mk "x" "")⟩ ++
       List.replicate 7 ⟨List.replicate 5 (Cell.mk "x" "")⟩)
      rfl (by decide) (by decide) (by decide)).trans ?_
    decide
  · refine (c4_malformed_rows
      (HtmlTable.mk (⟨List.replicate 5 (Cell.mk "x" "")⟩ ::
        (List.replicate 3 ⟨List.replicate 4 (Cell.mk "x" "")⟩ ++
         List.replicate 6 ⟨List.replicate 5 (Cell.mk "x" "")⟩)))
      "Prices" ⟨List.replicate 5 (Cell.mk "x" "")⟩
      (List.replicate 3 ⟨List.replicate 4 (Cell.mk "x" "")⟩ ++
       List.replicate 6 ⟨List.replicate 5 (Cell.mk "x" "")⟩)
      rfl (by decide) (by decide) (by decide)).trans ?_
    decide

/-! ## Dataset-id length bounds -/

theorem strTake_length_le (s : String) (n : Nat) : (s.take n).length ≤ n := by
  rw [show (s.take n).length = (s.take n).data.length from rfl, String.data_take]
  simp [List.length_take]

theorem joinUnderscore_length_le {l : List String} (h3 : l.length ≤ 3)
    (h4 : ∀ w ∈ l, w.length ≤ 4) : (joinUnderscore l).length ≤ 14 := by
  match l with
  | [] => simp [joinUnderscore]
  | [a] =>
    have := h4 a (by simp)
    show a.length ≤ 14
    omega
  | [a, b] =>
    have ha := h4 a (by simp)
    have hb := h4 b (by simp)
    show (a ++ "_" ++ b).length ≤ 14
    rw [String.length_append, String.length_append]
    have : ("_" : String).length = 1 := rfl
    omega
  | [a, b, c] =>
    have ha := h4 a (by simp)
    have hb := h4 b (by simp)
    have hc := h4 c (by simp)
    show (a ++ "_" ++ (b ++ "_" ++ c)).length ≤ 14
    rw [String.length_append, String.length_append, String.length_append,
      String.length_append]
    have : ("_" : String).length = 1 := rfl
    omega
  | _ :: _ :: _ :: _ :: _ =>
    exfalso
    simp at h3

theorem abs_id_truncation_le {A J : String} (hA : A.length ≤ 4) (hJ : J.length ≤ 14) :
    (if 50 < ("abs_" ++ A ++ "_" ++ J).length then ("abs_" ++ A ++ "_" ++ J).take 50
     else "abs_" ++ A ++ "_" ++ J).length ≤ 23 := by
  have habs : ("abs_" : String).length = 4 := rfl
  have hu : ("_" : String).length = 1 := rfl
  have hlen : ("abs_" ++ A ++ "_" ++ J).length = 5 + A.length + J.length := by
    rw [String.length_append, String.length_append, String.length_append]
    omega
  rw [if_neg (by omega)]
  omega

theorem generateDatasetId_length_le (name cat : String) :
    (generateDatasetId name cat).length ≤ 23 := by
  unfold generateDatasetId
  by_cases hne : name = ""
  · rw [if_pos hne]
    decide
  · rw [if_neg hne]
    dsimp only
    apply abs_id_truncation_le (strTake_length_le _ 4)
    cases hfind : termMap.find? (fun p => strContains (cleanIndicatorText name) p.1) with
    | some p =>
      dsimp only
      have hp := List.mem_of_find?_eq_some hfind
      have hall : ∀ q ∈ termMap, q.2.length ≤ 13 := by decide
      have := hall p hp
      show p.2.length ≤ 14
      omega
    | none =>
      dsimp only
      apply joinUnderscore_length_le
      · calc ((((pySplit (cleanIndicatorText name)).take 3).filter
            (fun w => 2 < w.length)).map (fun w => w.take 4)).length
            = (((pySplit (cleanIndicatorText name)).take 3).filter
              (fun w => 2 < w.length)).length := List.length_map _ _
          _ ≤ ((pySplit (cleanIndicatorText name)).take 3).length :=
            List.length_filter_le _ _
          _ ≤ 3 := by rw [List.length_take]; simp
      · intro w hw
        obtain ⟨x, _, rfl⟩ := List.mem_map.mp hw
        exact strTake_length_le x 4

/-! ## Claim C3 -/

/-- C3, counterexample: the claim predicts that with no canonical-term
match the id joins the first 3 words of the cleaned name, each truncated
to 4 characters — for `"rate of pay"` in category `"Prices"` that would
be `abs_pric_rate_of_pay` — but `_generate_dataset_id` first discards
words of length at most 2 (`if len(word) > 2`), so the actual id is
`abs_pric_rate_pay`. -/
theorem c3_counterexample :
    termMap.all (fun p => ! strContains (cleanIndicatorText "rate of pay") p.1) = true ∧
    generateDatasetId "rate of pay" "Prices" = "abs_pric_rate_pay" ∧
    ("abs_pric_rate_pay" : String) ≠ "abs_pric_rate_of_pay" :=
  ⟨by decide, by decide, by decide⟩

/-- C3, amended: for every nonempty indicator name in which no phrase of
the canonical-term map occurs as a substring of the cleaned
(lowercased, non-word/non-space-stripped) name, `_generate_dataset_id`
returns `abs_` + the first 4 characters of the lowercased category with
spaces replaced by underscores + `_` + the words among the first 3 words
of the cleaned name that are longer than 2 characters, each truncated to
its first 4 characters, joined with `_` (the 50-character truncation
never fires because this shape is at most 23 characters long). -/
theorem c3_unmapped_dataset_id (name cat : String) (hne : name ≠ "")
    (hnm : ∀ p ∈ termMap, strContains (cleanIndicatorText name) p.1 = false) :
    generateDatasetId name cat =
      "abs_" ++ (replaceSpaces (toLowerStr cat)).take 4 ++ "_" ++
        joinUnderscore ((((pySplit (cleanIndicatorText name)).take 3).filter
          (fun w => 2 < w.length)).map (fun w => w.take 4)) := by
  unfold generateDatasetId
  rw [if_neg hne]
  dsimp only
  rw [List.find?_eq_none.mpr (fun p hp => by simp [hnm p hp])]
  dsimp only
  rw [if_neg]
  intro hgt
  have hJ : (joinUnderscore ((((pySplit (cleanIndicatorText name)).take 3).filter
      (fun w => 2 < w.length)).map (fun w => w.take 4))).length ≤ 14 := by
    apply joinUnderscore_length_le
    · calc ((((pySplit (cleanIndicatorText name)).take 3).filter
          (fun w => 2 < w.length)).map (fun w => w.take 4)).length
          = (((pySplit (cleanIndicatorText name)).take 3).filter
            (fun w => 2 < w.length)).length := List.length_map _ _
        _ ≤ ((pySplit (cleanIndicatorText name)).take 3).length :=
          List.length_filter_le _ _
        _ ≤ 3 := by rw [List.length_take]; simp
    · intro w hw
      obtain ⟨x, _, rfl⟩ := List.mem_map.mp hw
      exact strTake_length_le x 4
  have hA := strTake_length_le (replaceSpaces (toLowerStr cat)) 4
  have habs : ("abs_" : String).length = 4 := rfl
  have hu : ("_" : String).length = 1 := rfl
  rw [String.length_append, String.length_append, String.length_append] at hgt
  omega

/-- C3, witness: the amended statement applied to the name
`"rate of pay"` and category `"Prices"`. -/
theorem c3_unmapped_dataset_id_witness :
    generateDatasetId "rate of pay" "Prices" =
      "abs_" ++ (replaceSpaces (toLowerStr "Prices")).take 4 ++ "_" ++
        joinUnderscore ((((pySplit (cleanIndicatorText "rate of pay")).take 3).filter
          (fun w => 2 < w.length)).map (fun w => w.take 4)) :=
  c3_unmapped_dataset_id "rate of pay" "Prices" (by decide)
    (by decide)

/-! ## Claim C5 -/

/-- C5: `_generate_dataset_id` is deterministic, so re-running it on an
emitted record's own `indicator` and `category` fields reproduces the
record's stored `dataset_id` exactly, and that id is under 50 characters
(in fact at most 23). -/
theorem c5_dataset_id_stable :
    ∀ (tbl : HtmlTable) (cat : String) (rec : IndicatorRecord),
      rec ∈ parseTable tbl cat →
      generateDatasetId rec.indicator rec.category = rec.dataset_id ∧
      rec.dataset_id.length < 50 := by
  intro tbl cat rec h
  obtain ⟨row, _, h5, heq⟩ := mem_parseTable h
  rw [rowRecord_eq_ite, if_pos h5] at heq
  injection heq with heq
  subst heq
  constructor
  · rfl
  · have hb : (buildRecord cat (extractCellValues row.cells)).dataset_id =
        generateDatasetId ((extractCellValues row.cells).getD 0 ("", "")).1 cat := rfl
    rw [hb]
    have := generateDatasetId_length_le ((extractCellValues row.cells).getD 0 ("", "")).1 cat
    omega

/-- C5, witness: the statement applied to the single record scraped from
a concrete two-row table. -/
theorem c5_dataset_id_stable_witness :
    generateDatasetId
      (buildRecord "Prices" (extractCellValues
        [⟨"Employed persons", ""⟩, ⟨"", ""⟩, ⟨"%", ""⟩, ⟨"na", ""⟩, ⟨"", ""⟩])).indicator
      (buildRecord "Prices" (extractCellValues
        [⟨"Employed persons", ""⟩, ⟨"", ""⟩, ⟨"%", ""⟩, ⟨"na", ""⟩, ⟨"", ""⟩])).category =
      (buildRecord "Prices" (extractCellValues
        [⟨"Employed persons", ""⟩, ⟨"", ""⟩, ⟨"%", ""⟩, ⟨"na", ""⟩, ⟨"", ""⟩])).dataset_id ∧
    (buildRecord "Prices" (extractCellValues
      [⟨"Employed persons", ""⟩, ⟨"", ""⟩, ⟨"%", ""⟩, ⟨"na", ""⟩, ⟨"", ""⟩])).dataset_id.length
      < 50 :=
  c5_dataset_id_stable
    ⟨[⟨[⟨"h", ""⟩, ⟨"h", ""⟩, ⟨"h", ""⟩, ⟨"h", ""⟩, ⟨"h", ""⟩]⟩,
      ⟨[⟨"Employed persons", ""⟩, ⟨"", ""⟩, ⟨"%", ""⟩, ⟨"na", ""⟩, ⟨"", ""⟩]⟩]⟩
    "Prices"
    (buildRecord "Prices" (extractCellValues
      [⟨"Employed persons", ""⟩, ⟨"", ""⟩, ⟨"%", ""⟩, ⟨"na", ""⟩, ⟨"", ""⟩]))
    (by decide)

/-! ## Claim C6 -/

theorem extractCellValues_getD (cells : List Cell) (i : Nat) (h : i < cells.length) :
    (extractCellValues cells).getD i ("", "") =
      (pyStrip (cells.getD i ⟨"", ""⟩).rawText, (cells.getD i ⟨"", ""⟩).link) := by
  unfold extractCellValues
  rw [List.getD_eq_getElem?_getD, List.getElem?_map, List.getD_eq_getElem?_getD]
  cases hx : cells[i]? with
  | none =>
    exfalso
    rw [List.getElem?_eq_none_iff] at hx
    omega
  | some cell => rfl

/-- C6: every value text whose stripped form (commas, `$`, `%` and
whitespace removed) is one of the missing-data tokens `na`, `NP`, `..`,
`n/a` parses to null (first conjunct); a failed float conversion of the
cleaned text yields null rather than an error (second conjunct); and a
row with at least 5 cells is still emitted as a record whose `value`
field is exactly that possibly-null parse of its fourth cell (third
conjunct). -/
theorem c6_null_values :
    (∀ t : String, strippedValueText t ∈ missingTokens → parseNumericValue t = none) ∧
    (∀ t : String,
      pyFloatOfDecimal ⟨(normalizeLeadingMinus (strippedValueText t)).data.filter
        (fun c => c ≠ ',')⟩ = none →
      parseNumericValue t = none) ∧
    (∀ (cat : String) (row : TableRow), 5 ≤ row.cells.length →
      rowRecord cat row = some (buildRecord cat (extractCellValues row.cells)) ∧
      (buildRecord cat (extractCellValues row.cells)).value =
        parseNumericValue (pyStrip (row.cells.getD 3 ⟨"", ""⟩).rawText)) := by
  refine ⟨?_, ?_, ?_⟩
  · intro t ht
    simp only [missingTokens, List.mem_cons, List.not_mem_nil, or_false] at ht
    rcases ht with h | h | h | h <;> (unfold parseNumericValue; rw [h]; decide)
  · intro t hf
    unfold parseNumericValue
    by_cases hcond : normalizeLeadingMinus (strippedValueText t) ≠ "" ∧
        ¬ missingTokens.contains (normalizeLeadingMinus (strippedValueText t))
    · rw [if_pos hcond]
      exact hf
    · rw [if_neg hcond]
  · intro cat row h5
    constructor
    · rw [rowRecord_eq_ite, if_pos h5]
    · show parseNumericValue ((extractCellValues row.cells).getD 3 ("", "")).1 = _
      rw [extractCellValues_getD row.cells 3 (by omega)]

/-- C6, witness: the statement applied to the token `"na"`, the
unconvertible text `"abc"`, and a concrete 5-cell row whose value cell
is `"n/a"`. -/
theorem c6_null_values_witness :
    parseNumericValue "na" = none ∧
    parseNumericValue "abc" = none ∧
    (rowRecord "Prices" ⟨[⟨"CPI", ""⟩, ⟨"Mar Qtr 2025", ""⟩, ⟨"Index", ""⟩,
        ⟨"n/a", ""⟩, ⟨"+0.8%", ""⟩]⟩ =
      some (buildRecord "Prices" (extractCellValues
        [⟨"CPI", ""⟩, ⟨"Mar Qtr 2025", ""⟩, ⟨"Index", ""⟩, ⟨"n/a", ""⟩, ⟨"+0.8%", ""⟩])) ∧
      (buildRecord "Prices" (extractCellValues
        [⟨"CPI", ""⟩, ⟨"Mar Qtr 2025", ""⟩, ⟨"Index", ""⟩, ⟨"n/a", ""⟩,
         ⟨"+0.8%", ""⟩])).value =
        parseNumericValue (pyStrip (([⟨"CPI", ""⟩, ⟨"Mar Qtr 2025", ""⟩, ⟨"Index", ""⟩,
          ⟨"n/a", ""⟩, ⟨"+0.8%", ""⟩] : List Cell).getD 3 ⟨"", ""⟩).rawText)) :=
  ⟨c6_null_values.1 "na" (by decide),
   c6_null_values.2.1 "abc" (by decide),
   c6_null_values.2.2 "Prices" ⟨[⟨"CPI", ""⟩, ⟨"Mar Qtr 2025", ""⟩, ⟨"Index", ""⟩,
     ⟨"n/a", ""⟩, ⟨"+0.8%", ""⟩]⟩ (by decide)⟩

/-! ## Claim C7 -/

/-- C7: `_parse_numeric_value` strips commas, currency symbols, percent
signs and whitespace and normalizes a leading unicode minus to ASCII `-`
before conversion: `"1,234.5%"` parses to 1234.5, `"-$2,000"` to -2000,
and `"−5"` (unicode minus) to -5. -/
theorem c7_numeric_formats :
    parseNumericValue "1,234.5%" = some (1234.5 : Rat) ∧
    parseNumericValue "-$2,000" = some (-2000 : Rat) ∧
    parseNumericValue "−5" = some (-5 : Rat) := by
  refine ⟨?_, ?_, ?_⟩
  · have h : parseNumericValue "1,234.5%" = pyFloatOfDecimal "1234.5" := by
      unfold parseNumericValue
      rw [show strippedValueText "1,234.5%" = "1234.5" from by decide]
      rw [show normalizeLeadingMinus "1234.5" = "1234.5" from by decide]
      rw [if_pos (by decide)]
      exact congrArg pyFloatOfDecimal (by decide)
    rw [h]
    simp +decide [pyFloatOfDecimal, digitsToNat, digitVal]
    norm_num
  · have h : parseNumericValue "-$2,000" = pyFloatOfDecimal "-2000" := by
      unfold parseNumericValue
      rw [show strippedValueText "-$2,000" = "-2000" from by decide]
      rw [show normalizeLeadingMinus "-2000" = "-2000" from by decide]
      rw [if_pos (by decide)]
      exact congrArg pyFloatOfDecimal (by decide)
    rw [h]
    simp +decide [pyFloatOfDecimal, digitsToNat, digitVal]
  · have h : parseNumericValue "−5" = pyFloatOfDecimal "-5" := by
      unfold parseNumericValue
      rw [show strippedValueText "−5" = "−5" from by decide]
      rw [show normalizeLeadingMinus "−5" = "-5" from by decide]
      rw [if_pos (by decide)]
      exact congrArg pyFloatOfDecimal (by decide)
    rw [h]
    simp +decide [pyFloatOfDecimal, digitsToNat, digitVal]

/-! ## Claim C2 -/

/-- C2: the extractor returns a definite (possibly empty) record list for
every fetch outcome — an empty list on fetch failure, and the
concatenation of the per-category results on success, over arbitrary
(that is, arbitrarily malformed) parsed pages — and a category for which
the two-tier search locates no table contributes the empty list without
affecting the other categories' contributions, which the concatenation
form of the second conjunct exhibits. -/
theorem c2_extractor_boundary :
    (∀ msg : String, scrapeKeyIndicators (.failure msg) = []) ∧
    (∀ soup : Soup, scrapeKeyIndicators (.success soup) =
      (categoriesList.map (fun c => scrapeCategoryTable soup c)).flatten) ∧
    (∀ (soup : Soup) (cat : String), locateCategoryTable soup cat = none →
      scrapeCategoryTable soup cat = []) := by
  refine ⟨fun msg => rfl, fun soup => rfl, ?_⟩
  intro soup cat h
  unfold scrapeCategoryTable scrapeCategoryTableCore
  rw [h]

/-- C2, witness: a failed fetch yields no records; a one-node page is
scraped category by category; a page without any table for the category
`"Prices"` contributes no records. -/
theorem c2_extractor_boundary_witness :
    scrapeKeyIndicators (.failure "HTTP 503") = [] ∧
    scrapeKeyIndicators (.success [⟨"p", "no tables here", none⟩]) =
      (categoriesList.map
        (fun c => scrapeCategoryTable [⟨"p", "no tables here", none⟩] c)).flatten ∧
    scrapeCategoryTable [⟨"p", "no tables here", none⟩] "Prices" = [] :=
  ⟨c2_extractor_boundary.1 "HTTP 503",
   c2_extractor_boundary.2.1 [⟨"p", "no tables here", none⟩],
   c2_extractor_boundary.2.2 [⟨"p", "no tables here", none⟩] "Prices" (by decide)⟩
